import Mathlib

/-!
# libnpf (`src/npf/npf/src/libnpf/npf.c`): ruleset linearizer, rule iterator and configuration lists

A shallow embedding of the parts of `npf.c` that build, flatten and walk an NPF
configuration.  proplib objects are values; a rule dictionary is a dictionary of
plain fields together with its optional `"subrules"` array, so that the authored
rule forest is a finite tree.  Unsigned machine integers are naturals reduced
modulo `2 ^ 32` where the C code can wrap.
-/

namespace Npf

/-! ## proplib objects -/

/-- A proplib object: booleans, unsigned and signed numbers, strings, opaque data,
arrays and dictionaries. -/
inductive PropObj where
  | bool (b : Bool)
  | unum (v : Nat)
  | snum (v : Int)
  | string (s : String)
  | data (bytes : List UInt8)
  | array (items : List PropObj)
  | dict (entries : List (String × PropObj))

/-- A proplib dictionary: an association list from keys to objects; the first entry
for a key is the one that counts. -/
abbrev PropDict := List (String × PropObj)

/-- The value stored under `key`, if any (`prop_dictionary_get`; `none` is `NULL`). -/
def prop_dictionary_get : PropDict → String → Option PropObj
  | [], _ => none
  | (k, v) :: rest, key => if k = key then some v else prop_dictionary_get rest key

/-- Drop every entry stored under `key` (`prop_dictionary_remove`). -/
def prop_dictionary_remove : PropDict → String → PropDict
  | [], _ => []
  | (k, v) :: rest, key =>
    if k = key then prop_dictionary_remove rest key
    else (k, v) :: prop_dictionary_remove rest key

/-- Store `val` under `key`, replacing what was there (`prop_dictionary_set`). -/
def prop_dictionary_set (d : PropDict) (key : String) (val : PropObj) : PropDict :=
  (key, val) :: prop_dictionary_remove d key

/-- The C conversion of an `int` to `uint32_t`. -/
def toUint32 (i : Int) : Nat := (i % 4294967296).toNat

/-- Store an unsigned 32-bit number (`prop_dictionary_set_uint32`). -/
def prop_dictionary_set_uint32 (d : PropDict) (key : String) (val : Nat) : PropDict :=
  prop_dictionary_set d key (.unum (val % 4294967296))

/-- Store an unsigned 64-bit number (`prop_dictionary_set_uint64`). -/
def prop_dictionary_set_uint64 (d : PropDict) (key : String) (val : Nat) : PropDict :=
  prop_dictionary_set d key (.unum (val % 18446744073709551616))

/-- Store a signed 32-bit number (`prop_dictionary_set_int32`). -/
def prop_dictionary_set_int32 (d : PropDict) (key : String) (val : Int) : PropDict :=
  prop_dictionary_set d key (.snum val)

/-- Store a string (`prop_dictionary_set_cstring`). -/
def prop_dictionary_set_cstring (d : PropDict) (key : String) (val : String) : PropDict :=
  prop_dictionary_set d key (.string val)

/-- Read an unsigned 32-bit number (`prop_dictionary_get_uint32`): succeeds only on a
number object that is non-negative and fits 32 bits; `none` leaves the caller's
variable untouched. -/
def prop_dictionary_get_uint32 (d : PropDict) (key : String) : Option Nat :=
  match prop_dictionary_get d key with
  | some (.unum v) => if v < 4294967296 then some v else none
  | some (.snum v) => if 0 ≤ v ∧ v < 2147483648 then some v.toNat else none
  | _ => none

/-- Read an unsigned 64-bit number (`prop_dictionary_get_uint64`). -/
def prop_dictionary_get_uint64 (d : PropDict) (key : String) : Option Nat :=
  match prop_dictionary_get d key with
  | some (.unum v) => if v < 18446744073709551616 then some v else none
  | some (.snum v) => if 0 ≤ v then some v.toNat else none
  | _ => none

/-- Read a string (`prop_dictionary_get_cstring_nocopy`): succeeds only on a string
object. -/
def prop_dictionary_get_cstring_nocopy (d : PropDict) (key : String) : Option String :=
  match prop_dictionary_get d key with
  | some (.string s) => some s
  | _ => none

/-! ## Rules -/

/-- A rule dictionary (`nrl_dict`).  `dict` holds every field except `"subrules"`;
`subrules` is the value of the `"subrules"` key: `none` when the key is absent,
`some l` when it holds the array `l` of child rule dictionaries. -/
inductive Rule where
  | mk (dict : PropDict) (subrules : Option (List Rule))

/-- The plain fields of a rule. -/
def Rule.dict : Rule → PropDict
  | .mk d _ => d

/-- The `"subrules"` array of a rule (`prop_dictionary_get(rldict, "subrules")`). -/
def Rule.subrules : Rule → Option (List Rule)
  | .mk _ s => s

/-- The rule after `prop_dictionary_set_uint32(rldict, "skip-to", idx)`. -/
def Rule.setSkipTo : Rule → Nat → Rule
  | .mk d s, idx => .mk (prop_dictionary_set_uint32 d "skip-to" idx) s

/-- The rule after `prop_dictionary_remove(rldict, "subrules")`. -/
def Rule.removeSubrules : Rule → Rule
  | .mk d _ => .mk d none

/-- The `"skip-to"` value read by the iterator: `uint32_t skipto = 0` followed by
`prop_dictionary_get_uint32(rldict, "skip-to", &skipto)`. -/
def Rule.skipto (r : Rule) : Nat :=
  (prop_dictionary_get_uint32 r.dict "skip-to").getD 0

/-! ## The linearizer: `_npf_ruleset_transform` -/

mutual
/-- One pass of the `while` loop of `_npf_ruleset_transform1` for the rule `rldict`:
the rule is added to `rlset` by reference; if it has a `"subrules"` array, the
array is processed recursively into the same `rlset`, and then the rule (which sits
at the index where it was added) gets `"skip-to"` set to the count of `rlset`
(an `unsigned`) and loses `"subrules"`. -/
def transformRule (rlset : List Rule) : Rule → List Rule
  | .mk d none => rlset ++ [.mk d none]
  | .mk d (some subrlset) =>
    let rlset1 := _npf_ruleset_transform1 (rlset ++ [.mk d (some subrlset)]) subrlset
    let idx := rlset1.length % 4294967296
    rlset1.set rlset.length (((Rule.mk d (some subrlset)).setSkipTo idx).removeSubrules)
termination_by structural r => r

/-- The function `_npf_ruleset_transform1(rlset, rules)`: iterate over `rules`, in order. -/
def _npf_ruleset_transform1 (rlset : List Rule) : List Rule → List Rule
  | [] => rlset
  | rldict :: rest => _npf_ruleset_transform1 (transformRule rlset rldict) rest
termination_by structural rules => rules
end

/-- The function `_npf_ruleset_transform(rlset)`: flatten into a fresh array. -/
def _npf_ruleset_transform (rlset : List Rule) : List Rule :=
  _npf_ruleset_transform1 [] rlset

/-! ## The authored forest -/

mutual
/-- Number of rules in the subtree of a rule, the rule itself included. -/
def Rule.count : Rule → Nat
  | .mk _ none => 1
  | .mk _ (some subrlset) => 1 + countRules subrlset
termination_by structural r => r

/-- Total number of rules in a forest, group headers included. -/
def countRules : List Rule → Nat
  | [] => 0
  | r :: rest => r.count + countRules rest
termination_by structural rules => rules
end

mutual
/-- Pre-order listing of the subtree of a rule: the rule, then its children. -/
def Rule.preorder : Rule → List Rule
  | .mk d none => [.mk d none]
  | .mk d (some subrlset) => .mk d (some subrlset) :: preorder subrlset
termination_by structural r => r

/-- Pre-order listing of a forest: parent before children, siblings in authored
order. -/
def preorder : List Rule → List Rule
  | [] => []
  | r :: rest => r.preorder ++ preorder rest
termination_by structural rules => rules
end

mutual
/-- Nesting depth of every rule of a subtree, in pre-order, the root being
inside `depth` groups. -/
def Rule.depths (depth : Nat) : Rule → List Nat
  | .mk _ none => [depth]
  | .mk _ (some subrlset) => depth :: forestDepths (depth + 1) subrlset
termination_by structural r => r

/-- Nesting depth of every rule of a forest, in pre-order: the number of groups
the rule is nested inside. -/
def forestDepths (depth : Nat) : List Rule → List Nat
  | [] => []
  | r :: rest => r.depths depth ++ forestDepths depth rest
termination_by structural rules => rules
end

/-- The fields of a rule with `"skip-to"` ignored (and without `"subrules"`). -/
def Rule.base (r : Rule) : PropDict :=
  prop_dictionary_remove r.dict "skip-to"

mutual
/-- What one loop pass of the linearizer appends for a rule when the output already
holds `n` rules (closed form used in the proofs). -/
def flattenRule (n : Nat) : Rule → List Rule
  | .mk d none => [.mk d none]
  | .mk d (some subrlset) =>
    .mk (prop_dictionary_set_uint32 d "skip-to" ((n + 1 + countRules subrlset) % 4294967296)) none
      :: flatten (n + 1) subrlset
termination_by structural r => r

/-- What the linearizer appends for `rules` when the output already holds `n` rules
(closed form used in the proofs). -/
def flatten (n : Nat) : List Rule → List Rule
  | [] => []
  | r :: rest => flattenRule n r ++ flatten (n + r.count) rest
termination_by structural rules => rules
end

/-! ## Configurations -/

/-- The root dictionary of a configuration (`npf_dict`), by its recognised keys;
`none` means that the key is absent. -/
structure RootDict where
  /-- Key `"version"`. -/
  version : Option Nat
  /-- Key `"rules"`. -/
  rules : Option (List Rule)
  /-- Key `"algs"`. -/
  algs : Option (List PropDict)
  /-- Key `"rprocs"`. -/
  rprocs : Option (List PropDict)
  /-- Key `"tables"`. -/
  tables : Option (List PropDict)
  /-- Key `"nat"`. -/
  nat : Option (List Rule)
  /-- Key `"conn-list"`. -/
  conn_list : Option (List PropDict)
  /-- Key `"flush"`. -/
  flush : Option Bool
  /-- Key `"debug"`. -/
  debug : Option PropDict

/-- The fields of `struct nl_config` used by the functions below; an array or
iterator pointer is `none` when it is `NULL`; an iterator is the list of elements
it has not yet returned.  The last field is not a member of the C structure: it
records that the reference held in `ncf_dict` has been released, so that the pointer
dangles. -/
structure nl_config where
  ncf_dict : Option RootDict
  ncf_alg_list : Option (List PropDict)
  ncf_rules_list : Option (List Rule)
  ncf_rproc_list : Option (List PropDict)
  ncf_table_list : Option (List PropDict)
  ncf_nat_list : Option (List Rule)
  ncf_conn_list : Option (List PropDict)
  ncf_rule_iter : Option (List Rule)
  /-- The array `unsigned ncf_reduce[16]`. -/
  ncf_reduce : List Nat
  ncf_nlevel : Nat
  ncf_counter : Nat
  ncf_cur_rule : Option Rule
  ncf_debug : Option PropDict
  ncf_flush : Bool
  /-- The document `ncf_dict` points to has been released. -/
  ncf_dict_released : Bool := false

/-- Ways in which a call leaves the defined behaviour of C. -/
inductive Fault where
  /-- An iterator is taken over a `NULL` array and advanced. -/
  | nullArray
  /-- `strcmp` on the uninitialised `lname` of `_npf_prop_array_lookup`. -/
  | uninitialised
  /-- The array `ncf_reduce` is indexed at 16 or beyond. -/
  | reduceBounds
  /-- The assertion `ncf_nlevel > 0` fails. -/
  | assertion
  /-- The pointer `ncf_dict` is used after the document it points to was released. -/
  | releasedDocument
  deriving DecidableEq, Repr

/-- An `int` result: 0 or an `errno` value. -/
inductive Status where
  | success
  | EINVAL
  | EEXIST
  | ENOMEM
  | ENOTSUP
  | ENOENT
  deriving DecidableEq, Repr

/-- The function `npf_config_create` (allocations succeeding): `calloc` zeroes the
structure, then the five section arrays are created empty. -/
def npf_config_create : nl_config where
  ncf_dict := none
  ncf_alg_list := some []
  ncf_rules_list := some []
  ncf_rproc_list := some []
  ncf_table_list := some []
  ncf_nat_list := some []
  ncf_conn_list := none
  ncf_rule_iter := none
  ncf_reduce := List.replicate 16 0
  ncf_nlevel := 0
  ncf_counter := 0
  ncf_cur_rule := none
  ncf_debug := none
  ncf_flush := false

/-- The function `_npf_config_consdict` (allocation succeeding): a zeroed structure
whose section arrays are whatever the dictionary holds under the section keys. -/
def _npf_config_consdict (npf_dict : RootDict) : nl_config where
  ncf_dict := some npf_dict
  ncf_alg_list := npf_dict.algs
  ncf_rules_list := npf_dict.rules
  ncf_rproc_list := npf_dict.rprocs
  ncf_table_list := npf_dict.tables
  ncf_nat_list := npf_dict.nat
  ncf_conn_list := npf_dict.conn_list
  ncf_rule_iter := none
  ncf_reduce := List.replicate 16 0
  ncf_nlevel := 0
  ncf_counter := 0
  ncf_cur_rule := none
  ncf_debug := none
  ncf_flush := false

/-- The function `npf_config_import`; `internalize` stands for
`prop_dictionary_internalize`, which parses the blob or returns `NULL`. -/
def npf_config_import (internalize : List UInt8 → Option RootDict) (blob : List UInt8) :
    Option nl_config :=
  match internalize blob with
  | none => none
  | some npf_dict => some (_npf_config_consdict npf_dict)

/-! ## The rule iterator -/

/-- The function `_npf_rule_iterate1(ncf, rlist, &level)`: the result is the rule
returned together with the value written to `*level`, or `none` for `NULL`. -/
def _npf_rule_iterate1 (ncf : nl_config) (rlist : Option (List Rule)) :
    Except Fault (Option (Rule × Nat) × nl_config) :=
  let ncf := if ncf.ncf_rule_iter.isNone then
      { ncf with ncf_rule_iter := rlist, ncf_nlevel := 0,
                 ncf_reduce := ncf.ncf_reduce.set 0 0, ncf_counter := 0 }
    else ncf
  match ncf.ncf_rule_iter with
  | none => .error .nullArray
  | some [] => .ok (none, { ncf with ncf_cur_rule := none, ncf_rule_iter := none })
  | some (rldict :: rest) =>
    let level := ncf.ncf_nlevel
    let skipto := rldict.skipto
    let nlevel := if skipto ≠ 0 then (ncf.ncf_nlevel + 1) % 4294967296 else ncf.ncf_nlevel
    if 16 ≤ nlevel then .error .reduceBounds
    else
      let reduce := if skipto ≠ 0 then ncf.ncf_reduce.set nlevel skipto else ncf.ncf_reduce
      let counter := (ncf.ncf_counter + 1) % 4294967296
      if reduce[nlevel]?.getD 0 = counter then
        if 0 < nlevel then
          .ok (some (rldict, level),
            { ncf with ncf_cur_rule := some rldict, ncf_rule_iter := some rest,
                       ncf_reduce := reduce, ncf_counter := counter, ncf_nlevel := nlevel - 1 })
        else .error .assertion
      else
        .ok (some (rldict, level),
          { ncf with ncf_cur_rule := some rldict, ncf_rule_iter := some rest,
                     ncf_reduce := reduce, ncf_counter := counter, ncf_nlevel := nlevel })

/-- The function `npf_rule_iterate`. -/
def npf_rule_iterate (ncf : nl_config) : Except Fault (Option (Rule × Nat) × nl_config) :=
  _npf_rule_iterate1 ncf ncf.ncf_rules_list

/-- The results of `n` successive calls of `npf_rule_iterate`, in order, and the
configuration after the last one; a fault ends the run. -/
def iterateCalls : Nat → nl_config → Except Fault (List (Option (Rule × Nat)) × nl_config)
  | 0, ncf => .ok ([], ncf)
  | n + 1, ncf =>
    match npf_rule_iterate ncf with
    | .error e => .error e
    | .ok (res, ncf1) =>
      match iterateCalls n ncf1 with
      | .error e => .error e
      | .ok (rs, ncf2) => .ok (res :: rs, ncf2)

/-- The levels reported by a run of calls that returned rules. -/
def reportedLevels (results : List (Option (Rule × Nat))) : List Nat :=
  results.filterMap (fun res => res.map Prod.snd)

/-- A configuration whose rules section is the flattened list `rules` and whose
iterator has not been started. -/
def configWithRules (rules : List Rule) : nl_config :=
  { npf_config_create with ncf_rules_list := some rules }

/-- Number of rules of a list that carry a non-zero `"skip-to"`. -/
def pushCount (rules : List Rule) : Nat :=
  rules.countP (fun r => decide (r.skipto ≠ 0))

/-! ## Section lists: tables, rule procedures, ALGs -/

/-- The function `_npf_prop_array_lookup(array, key, name)`: walk the array until an
entry whose string under `key` equals `name`.  `lname` has no initialiser, so an
entry without such a string makes `strcmp` read an uninitialised pointer. -/
def arrayLookupLoop : List PropDict → String → String → Except Fault Bool
  | [], _, _ => .ok false
  | dict :: rest, key, name =>
    match prop_dictionary_get_cstring_nocopy dict key with
    | none => .error .uninitialised
    | some lname => if name = lname then .ok true else arrayLookupLoop rest key name

/-- The function `_npf_prop_array_lookup` on an array pointer. -/
def _npf_prop_array_lookup (array : Option (List PropDict)) (key name : String) :
    Except Fault Bool :=
  match array with
  | none => .error .nullArray
  | some items => arrayLookupLoop items key name

/-- The loop of `_npf_table_exists_p`: `tname` starts as `NULL` and an entry counts only
when the string is there and equal to `name`. -/
def tableExistsLoop : List PropDict → String → Bool
  | [], _ => false
  | tldict :: rest, name =>
    match prop_dictionary_get_cstring_nocopy tldict "name" with
    | some tname => if tname = name then true else tableExistsLoop rest name
    | none => tableExistsLoop rest name

/-- The function `_npf_table_exists_p(ncf, name)`. -/
def _npf_table_exists_p (ncf : nl_config) (name : String) : Except Fault Bool :=
  match ncf.ncf_table_list with
  | none => .error .nullArray
  | some tables => .ok (tableExistsLoop tables name)

/-- The function `npf_table_create(name, id, type)` (allocations succeeding); `id` is
a `u_int`. -/
def npf_table_create (name : String) (id : Nat) (type : Int) : PropDict :=
  let tldict : PropDict := []
  let tldict := prop_dictionary_set_cstring tldict "name" name
  let tldict := prop_dictionary_set_uint64 tldict "id" (id % 4294967296)
  let tldict := prop_dictionary_set_int32 tldict "type" type
  prop_dictionary_set tldict "entries" (.array [])

/-- The function `npf_table_insert(ncf, tl)`. -/
def npf_table_insert (ncf : nl_config) (tl : PropDict) : Except Fault (Status × nl_config) :=
  match prop_dictionary_get_cstring_nocopy tl "name" with
  | none => .ok (.EINVAL, ncf)
  | some name =>
    match _npf_table_exists_p ncf name with
    | .error e => .error e
    | .ok true => .ok (.EEXIST, ncf)
    | .ok false =>
      .ok (.success, { ncf with ncf_table_list := ncf.ncf_table_list.map (fun l => l ++ [tl]) })

/-- The function `npf_rproc_exists_p(ncf, name)`. -/
def npf_rproc_exists_p (ncf : nl_config) (name : String) : Except Fault Bool :=
  _npf_prop_array_lookup ncf.ncf_rproc_list "name" name

/-- The function `npf_rproc_insert(ncf, rp)`. -/
def npf_rproc_insert (ncf : nl_config) (rp : PropDict) : Except Fault (Status × nl_config) :=
  match prop_dictionary_get_cstring_nocopy rp "name" with
  | none => .ok (.EINVAL, ncf)
  | some name =>
    match npf_rproc_exists_p ncf name with
    | .error e => .error e
    | .ok true => .ok (.EEXIST, ncf)
    | .ok false =>
      .ok (.success, { ncf with ncf_rproc_list := ncf.ncf_rproc_list.map (fun l => l ++ [rp]) })

/-- The function `_npf_alg_load(ncf, name)`. -/
def _npf_alg_load (ncf : nl_config) (name : String) : Except Fault (Status × nl_config) :=
  match _npf_prop_array_lookup ncf.ncf_alg_list "name" name with
  | .error e => .error e
  | .ok true => .ok (.EEXIST, ncf)
  | .ok false =>
    let al_dict := prop_dictionary_set_cstring [] "name" name
    .ok (.success, { ncf with ncf_alg_list := ncf.ncf_alg_list.map (fun l => l ++ [al_dict]) })

/-- One call on a configuration: an insertion of a table, of a rule procedure, or
the loading of an ALG. -/
inductive ConfigCall where
  | table_insert (tl : PropDict)
  | rproc_insert (rp : PropDict)
  | alg_load (name : String)

/-- Run one call; the status is dropped, the configuration kept. -/
def ConfigCall.run (ncf : nl_config) : ConfigCall → Except Fault nl_config
  | .table_insert tl => (npf_table_insert ncf tl).map Prod.snd
  | .rproc_insert rp => (npf_rproc_insert ncf rp).map Prod.snd
  | .alg_load name => (_npf_alg_load ncf name).map Prod.snd

/-- Run a sequence of calls from a configuration, in order. -/
def runCalls : nl_config → List ConfigCall → Except Fault nl_config
  | ncf, [] => .ok ncf
  | ncf, c :: rest =>
    match c.run ncf with
    | .error e => .error e
    | .ok ncf1 => runCalls ncf1 rest

/-- The names of the entries of a section list, `none` for an entry without a
string under `"name"`. -/
def sectionNames (l : List PropDict) : List (Option String) :=
  l.map (fun d => prop_dictionary_get_cstring_nocopy d "name")

/-- The numeric ids of the entries of a table list. -/
def tableIds (l : List PropDict) : List (Option Nat) :=
  l.map (fun d => prop_dictionary_get_uint64 d "id")

/-- A section list is in order: the array is there, every entry has a name, and the
names are pairwise distinct. -/
def SectionOk (l : Option (List PropDict)) : Prop :=
  ∃ items, l = some items ∧ (∀ n ∈ sectionNames items, n.isSome = true) ∧
    (sectionNames items).Nodup

/-- The three name-keyed section lists of a configuration are in order. -/
def NamesOk (ncf : nl_config) : Prop :=
  SectionOk ncf.ncf_table_list ∧ SectionOk ncf.ncf_rproc_list ∧ SectionOk ncf.ncf_alg_list

/-! ## Rule code -/

/-- The function `prop_data_create_data(buf, len)`: a copy of the first `len` bytes,
or `NULL` when the allocation fails (`alloc_ok = false`). -/
def prop_data_create_data (alloc_ok : Bool) (buf : List UInt8) (len : Nat) : Option PropObj :=
  if alloc_ok then some (.data (buf.take len)) else none

/-- The function `npf_rule_setcode(rl, type, code, len)`; the two tags are macros of
`npf.h` and are taken as parameters. -/
def npf_rule_setcode (NPF_CODE_NC NPF_CODE_BPF : Int) (alloc_ok : Bool)
    (rl : Rule) (type : Int) (code : List UInt8) (len : Nat) : Status × Rule :=
  if type = NPF_CODE_NC ∨ type = NPF_CODE_BPF then
    let rl1 := Rule.mk (prop_dictionary_set_uint32 rl.dict "code-type" (toUint32 type)) rl.subrules
    match prop_data_create_data alloc_ok code len with
    | none => (.ENOMEM, rl1)
    | some cdata => (.success, Rule.mk (prop_dictionary_set rl1.dict "code" cdata) rl1.subrules)
  else (.ENOTSUP, rl)

/-- The value stored under a key of a rule dictionary, the `"subrules"` key apart. -/
def Rule.get (r : Rule) (key : String) : Option PropObj :=
  prop_dictionary_get r.dict key

/-! ## Example data -/

/-- A rule without subrules whose only field is its name. -/
def namedRule (name : String) : Rule :=
  .mk (prop_dictionary_set_cstring [] "name" name) none

/-- A group header whose only field is its name. -/
def namedGroup (name : String) (subrules : List Rule) : Rule :=
  .mk (prop_dictionary_set_cstring [] "name" name) (some subrules)

/-- A flattened group header: a name and a `"skip-to"` value. -/
def skipRule (name : String) (skipto : Nat) : Rule :=
  .mk (prop_dictionary_set_uint32 (prop_dictionary_set_cstring [] "name" name) "skip-to" skipto) none

/-- The levels reported by the first `n` calls of `npf_rule_iterate` on a configuration
whose rules section is `rules`, together with whether each call returned a rule;
`none` when a call faults. -/
def iterateReport (n : Nat) (rules : List Rule) : Option (List Nat × List Bool) :=
  (iterateCalls n (configWithRules rules)).toOption.map
    (fun p => (reportedLevels p.1, p.1.map Option.isSome))

/-- The skeleton of a root document with one rule `A`, empty section lists and the
given `"version"` entry. -/
def exampleRoot (version : Option Nat) : RootDict where
  version := version
  rules := some [namedRule "A"]
  algs := some []
  rprocs := some []
  tables := some []
  nat := some []
  conn_list := none
  flush := some false
  debug := none

/-- A root document with one rule `A` and no `"tables"` entry. -/
def rootWithoutTables : RootDict :=
  { exampleRoot none with tables := none }

/-- A parser that internalizes the blob `blob` to the document `doc` and rejects every
other blob. -/
def internalizeOnly (blob : List UInt8) (doc : RootDict) : List UInt8 → Option RootDict :=
  fun b => if b = blob then some doc else none

/-- The forest `[A, B{subrules:[C, D{subrules:[E]}]}, F]`. -/
def exampleForest : List Rule :=
  [namedRule "A", namedGroup "B" [namedRule "C", namedGroup "D" [namedRule "E"]], namedRule "F"]

/-! ## Building the root document -/

/-- The function `_npf_build_config(ncf)` (allocations succeeding); `NPF_VERSION` is a
macro of `npf.h` and is taken as a parameter.  The rules section is replaced by its
linearization; a `NULL` rules array cannot be walked.  A `NULL` section is not set
in the dictionary. -/
def _npf_build_config (NPF_VERSION : Nat) (ncf : nl_config) :
    Except Fault (RootDict × nl_config) :=
  match ncf.ncf_rules_list with
  | none => .error .nullArray
  | some rules =>
    let rlset := _npf_ruleset_transform rules
    let ncf1 := { ncf with ncf_rules_list := some rlset }
    .ok ({ version := some (NPF_VERSION % 4294967296)
           rules := ncf1.ncf_rules_list
           algs := ncf1.ncf_alg_list
           rprocs := ncf1.ncf_rproc_list
           tables := ncf1.ncf_table_list
           nat := ncf1.ncf_nat_list
           conn_list := ncf1.ncf_conn_list
           flush := some ncf1.ncf_flush
           debug := ncf1.ncf_debug }, ncf1)

/-- The function `npf_config_build(ncf)`: build the root document once and keep it in
`ncf_dict`; a kept document is handed out as it is, unless it has been released, in
which case the pointer tested and returned dangles. -/
def npf_config_build (NPF_VERSION : Nat) (ncf : nl_config) :
    Except Fault (RootDict × nl_config) :=
  match ncf.ncf_dict with
  | some npf_dict =>
    if ncf.ncf_dict_released then .error .releasedDocument else .ok (npf_dict, ncf)
  | none =>
    match _npf_build_config NPF_VERSION ncf with
    | .error e => .error e
    | .ok (npf_dict, ncf1) => .ok (npf_dict, { ncf1 with ncf_dict := some npf_dict })

/-- The function `npf_config_export(ncf, &length)`: the root document is `ncf_dict` or,
when there is none, a freshly built one, which is not kept; `externalize` stands for
`prop_dictionary_externalize`.  The result is the blob, or `none` for `NULL`.  On both
paths, and whether or not a blob comes out, the document is released after use
(`prop_object_release(npf_dict)`): a document kept in `ncf_dict` is released as well,
while `ncf_dict` goes on pointing to it, and exporting it once more uses a released
document. -/
def npf_config_export (externalize : RootDict → Option (List UInt8)) (NPF_VERSION : Nat)
    (ncf : nl_config) : Except Fault (Option (List UInt8) × nl_config) :=
  match ncf.ncf_dict with
  | some npf_dict =>
    if ncf.ncf_dict_released then .error .releasedDocument
    else .ok (externalize npf_dict, { ncf with ncf_dict_released := true })
  | none =>
    match _npf_build_config NPF_VERSION ncf with
    | .error e => .error e
    | .ok (npf_dict, ncf1) => .ok (externalize npf_dict, ncf1)

/-- The function `npf_rule_getid(rl)`: `id` starts as 0, is read as an unsigned 64-bit
number, and is returned through the cast `(unsigned)id`. -/
def npf_rule_getid (rl : Rule) : Nat :=
  ((prop_dictionary_get_uint64 rl.dict "id").getD 0) % 4294967296

/-! ## Shapes of authored forests -/

mutual
/-- No rule of the subtree carries `"skip-to"`. -/
def Rule.skipFree : Rule → Bool
  | .mk d none => (prop_dictionary_get d "skip-to").isNone
  | .mk d (some subrlset) => (prop_dictionary_get d "skip-to").isNone && forestSkipFree subrlset
termination_by structural r => r

/-- No rule of the forest carries `"skip-to"`. -/
def forestSkipFree : List Rule → Bool
  | [] => true
  | r :: rest => r.skipFree && forestSkipFree rest
termination_by structural rules => rules
end

/-- The last element of the list has a `"subrules"` field. -/
def lastIsGroup : List Rule → Bool
  | [] => false
  | [r] => r.subrules.isSome
  | _ :: r :: rest => lastIsGroup (r :: rest)

mutual
/-- In the subtree, no rule that has a `"subrules"` field is the last element of the
`"subrules"` list of another rule. -/
def Rule.lastPlain : Rule → Bool
  | .mk _ none => true
  | .mk _ (some subrlset) => !lastIsGroup subrlset && forestLastPlain subrlset
termination_by structural r => r

/-- In the forest, no rule that has a `"subrules"` field is the last element of the
`"subrules"` list of another rule (the top-level list may end with a group). -/
def forestLastPlain : List Rule → Bool
  | [] => true
  | r :: rest => r.lastPlain && forestLastPlain rest
termination_by structural rules => rules
end

mutual
/-- Every group header of the subtree is nested inside at most `limit` groups, the
root being nested inside `depth` groups. -/
def Rule.groupsWithin (depth limit : Nat) : Rule → Bool
  | .mk _ none => true
  | .mk _ (some subrlset) => decide (depth ≤ limit) && forestGroupsWithin (depth + 1) limit subrlset
termination_by structural r => r

/-- Every group header of the forest is nested inside at most `limit` groups, the
rules of the list being nested inside `depth` groups. -/
def forestGroupsWithin (depth limit : Nat) : List Rule → Bool
  | [] => true
  | r :: rest => r.groupsWithin depth limit && forestGroupsWithin depth limit rest
termination_by structural rules => rules
end

/-- The forest of fifteen copies of `G{subrules:[H{subrules:[x]}]}`. -/
def leakForest : List Rule :=
  List.replicate 15 (namedGroup "G" [namedGroup "H" [namedRule "x"]])

/-- The names of the rules of a list. -/
def ruleNames (rules : List Rule) : List (Option String) :=
  rules.map (fun r => prop_dictionary_get_cstring_nocopy r.dict "name")

/-- The state of a configuration between two calls of `npf_rule_iterate` over the rules
section `rs`: entry 0 of `ncf_reduce` is 0 and, while an iteration is under way, the
level is within the array and the counter cannot wrap before the end of the list. -/
def IterSafe (rs : List Rule) (ncf : nl_config) : Prop :=
  ncf.ncf_rules_list = some rs ∧ ncf.ncf_reduce[0]?.getD 0 = 0 ∧
  (ncf.ncf_rule_iter = none ∨
    ∃ rest, ncf.ncf_rule_iter = some rest ∧ ncf.ncf_nlevel ≤ 15 ∧
      ncf.ncf_counter + rest.length < 4294967296)

/-- The forest `[A, B{subrules:[E{subrules:[]}, C, D{subrules:[X]}, Z]}, F{subrules:[Y]}]`,
in which no group is the last element of a `"subrules"` list. -/
def nestedForest : List Rule :=
  [namedRule "A",
   namedGroup "B" [namedGroup "E" [], namedRule "C", namedGroup "D" [namedRule "X"],
     namedRule "Z"],
   namedGroup "F" [namedRule "Y"]]

/-! ## Dictionary lemmas -/

theorem prop_dictionary_remove_idem (d : PropDict) (key : String) :
    prop_dictionary_remove (prop_dictionary_remove d key) key = prop_dictionary_remove d key := by
  induction d with
  | nil => rfl
  | cons e rest ih =>
    obtain ⟨k, v⟩ := e
    by_cases h : k = key
    · simp [prop_dictionary_remove, h, ih]
    · simp [prop_dictionary_remove, h, ih]

theorem prop_dictionary_get_remove_self (d : PropDict) (key : String) :
    prop_dictionary_get (prop_dictionary_remove d key) key = none := by
  induction d with
  | nil => rfl
  | cons e rest ih =>
    obtain ⟨k, v⟩ := e
    by_cases h : k = key
    · simp [prop_dictionary_remove, h, ih]
    · simp [prop_dictionary_remove, prop_dictionary_get, h, ih]

theorem prop_dictionary_get_remove_ne (d : PropDict) (key other : String) (hne : other ≠ key) :
    prop_dictionary_get (prop_dictionary_remove d key) other = prop_dictionary_get d other := by
  induction d with
  | nil => rfl
  | cons e rest ih =>
    obtain ⟨k, v⟩ := e
    by_cases h : k = key
    · have h2 : ¬ k = other := fun h3 => hne (h3 ▸ h)
      rw [prop_dictionary_remove, if_pos h, prop_dictionary_get, if_neg h2, ih]
    · by_cases h2 : k = other
      · rw [prop_dictionary_remove, if_neg h, prop_dictionary_get, if_pos h2,
          prop_dictionary_get, if_pos h2]
      · rw [prop_dictionary_remove, if_neg h, prop_dictionary_get, if_neg h2,
          prop_dictionary_get, if_neg h2, ih]

theorem prop_dictionary_get_set_self (d : PropDict) (key : String) (val : PropObj) :
    prop_dictionary_get (prop_dictionary_set d key val) key = some val := by
  simp [prop_dictionary_set, prop_dictionary_get]

theorem prop_dictionary_get_set_ne (d : PropDict) (key other : String) (val : PropObj)
    (hne : other ≠ key) :
    prop_dictionary_get (prop_dictionary_set d key val) other = prop_dictionary_get d other := by
  have h : ¬ key = other := fun h => hne h.symm
  simp [prop_dictionary_set, prop_dictionary_get, h, prop_dictionary_get_remove_ne d key other hne]

theorem skipto_setSkipTo (d : PropDict) (v : Nat) (hv : v < 4294967296) :
    (Rule.mk (prop_dictionary_set_uint32 d "skip-to" v) none).skipto = v := by
  simp [Rule.skipto, Rule.dict, prop_dictionary_get_uint32, prop_dictionary_set_uint32,
    prop_dictionary_get_set_self, Nat.mod_eq_of_lt hv, hv]

theorem base_setSkipTo (d : PropDict) (v : Nat) (s : Option (List Rule)) :
    (Rule.mk (prop_dictionary_set_uint32 d "skip-to" v) none).base = (Rule.mk d s).base := by
  simp [Rule.base, Rule.dict, prop_dictionary_set_uint32, prop_dictionary_set,
    prop_dictionary_remove, prop_dictionary_remove_idem]

/-! ## The linearizer in closed form -/

mutual
theorem flattenRule_length (n : Nat) : ∀ r : Rule, (flattenRule n r).length = r.count
  | .mk d none => by simp [flattenRule, Rule.count]
  | .mk d (some subrlset) => by
    simp [flattenRule, Rule.count, flatten_length (n + 1) subrlset]; omega
theorem flatten_length (n : Nat) : ∀ rules : List Rule, (flatten n rules).length = countRules rules
  | [] => by simp [flatten, countRules]
  | r :: rest => by
    simp [flatten, countRules, flattenRule_length n r, flatten_length (n + r.count) rest]
end

mutual
theorem transformRule_eq (rlset : List Rule) :
    ∀ r : Rule, transformRule rlset r = rlset ++ flattenRule rlset.length r
  | .mk d none => by simp [transformRule, flattenRule]
  | .mk d (some subrlset) => by
    have h := transform1_eq (rlset ++ [.mk d (some subrlset)]) subrlset
    simp only [transformRule, flattenRule, h]
    simp [List.set_append, flatten_length, Rule.setSkipTo, Rule.removeSubrules,
      prop_dictionary_set_uint32]
    rw [show rlset.length + (countRules subrlset + 1) = rlset.length + 1 + countRules subrlset
      by omega]
theorem transform1_eq (rlset : List Rule) :
    ∀ rules : List Rule, _npf_ruleset_transform1 rlset rules = rlset ++ flatten rlset.length rules
  | [] => by simp [_npf_ruleset_transform1, flatten]
  | r :: rest => by
    rw [_npf_ruleset_transform1, transformRule_eq rlset r, transform1_eq _ rest]
    simp [flatten, flattenRule_length]
end

theorem transform_eq (rules : List Rule) : _npf_ruleset_transform rules = flatten 0 rules := by
  simp [_npf_ruleset_transform, transform1_eq]

mutual
theorem rule_preorder_length : ∀ r : Rule, r.preorder.length = r.count
  | .mk d none => by simp [Rule.preorder, Rule.count]
  | .mk d (some subrlset) => by
    simp [Rule.preorder, Rule.count, preorder_length subrlset]; omega
theorem preorder_length : ∀ rules : List Rule, (preorder rules).length = countRules rules
  | [] => by simp [preorder, countRules]
  | r :: rest => by
    simp [preorder, countRules, rule_preorder_length r, preorder_length rest]
end

mutual
theorem flattenRule_base (n : Nat) :
    ∀ r : Rule, (flattenRule n r).map Rule.base = r.preorder.map Rule.base
  | .mk d none => by simp [flattenRule, Rule.preorder]
  | .mk d (some subrlset) => by
    simp [flattenRule, Rule.preorder, flatten_base (n + 1) subrlset, base_setSkipTo d _ (some subrlset)]
theorem flatten_base (n : Nat) :
    ∀ rules : List Rule, (flatten n rules).map Rule.base = (preorder rules).map Rule.base
  | [] => by simp [flatten, preorder]
  | r :: rest => by
    simp [flatten, preorder, flattenRule_base n r, flatten_base (n + r.count) rest]
end

mutual
theorem flattenRule_subrules (n : Nat) :
    ∀ r : Rule, ∀ x ∈ flattenRule n r, x.subrules = none
  | .mk d none => by simp [flattenRule, Rule.subrules]
  | .mk d (some subrlset) => by
    intro x hx
    simp only [flattenRule, List.mem_cons] at hx
    rcases hx with hx | hx
    · rw [hx]; rfl
    · exact flatten_subrules (n + 1) subrlset x hx
theorem flatten_subrules (n : Nat) :
    ∀ rules : List Rule, ∀ x ∈ flatten n rules, x.subrules = none
  | [] => by simp [flatten]
  | r :: rest => by
    intro x hx
    simp only [flatten, List.mem_append] at hx
    rcases hx with hx | hx
    · exact flattenRule_subrules n r x hx
    · exact flatten_subrules (n + r.count) rest x hx
end


theorem count_group (d : PropDict) (l : List Rule) :
    (Rule.mk d (some l)).count = 1 + countRules l := by
  rw [Rule.count]

theorem countRules_cons (r : Rule) (rest : List Rule) :
    countRules (r :: rest) = r.count + countRules rest := by
  rw [countRules]

mutual
theorem flattenRule_at (n : Nat) : ∀ (r : Rule) (i : Nat) (d : PropDict) (subs : List Rule),
    r.preorder[i]? = some (.mk d (some subs)) →
    (flattenRule n r)[i]? = some (.mk (prop_dictionary_set_uint32 d "skip-to"
        ((n + i + 1 + countRules subs) % 4294967296)) none)
      ∧ ((flattenRule n r).drop (i + 1)).take (countRules subs) = flatten (n + i + 1) subs
      ∧ i + 1 + countRules subs ≤ r.count
  | .mk d0 none, i, d, subs, h => by
    cases i with
    | zero => simp [Rule.preorder] at h
    | succ j => simp [Rule.preorder] at h
  | .mk d0 (some l), i, d, subs, h => by
    cases i with
    | zero =>
      simp only [Rule.preorder, List.getElem?_cons_zero, Option.some.injEq, Rule.mk.injEq] at h
      obtain ⟨h1, h2⟩ := h
      subst h1
      subst h2
      refine ⟨by simp [flattenRule], ?_, by have hc := count_group d0 l; omega⟩
      simp only [flattenRule, List.drop_succ_cons, List.drop_zero]
      rw [← flatten_length (n + 1) l, List.take_length]
    | succ j =>
      simp only [Rule.preorder, List.getElem?_cons_succ] at h
      obtain ⟨h1, h2, h3⟩ := flatten_at (n + 1) l j d subs h
      refine ⟨?_, ?_, by have hc := count_group d0 l; omega⟩
      · simp only [flattenRule, List.getElem?_cons_succ, h1]
        rw [show n + 1 + j + 1 + countRules subs = n + (j + 1) + 1 + countRules subs by omega]
      · simp only [flattenRule, List.drop_succ_cons, h2]
        rw [show n + 1 + j + 1 = n + (j + 1) + 1 by omega]
theorem flatten_at (n : Nat) : ∀ (rules : List Rule) (i : Nat) (d : PropDict) (subs : List Rule),
    (preorder rules)[i]? = some (.mk d (some subs)) →
    (flatten n rules)[i]? = some (.mk (prop_dictionary_set_uint32 d "skip-to"
        ((n + i + 1 + countRules subs) % 4294967296)) none)
      ∧ ((flatten n rules).drop (i + 1)).take (countRules subs) = flatten (n + i + 1) subs
      ∧ i + 1 + countRules subs ≤ countRules rules
  | [], i, d, subs, h => by simp [preorder] at h
  | r :: rest, i, d, subs, h => by
    simp only [preorder] at h
    by_cases hi : i < r.count
    · rw [List.getElem?_append_left (by rw [rule_preorder_length]; exact hi)] at h
      obtain ⟨h1, h2, h3⟩ := flattenRule_at n r i d subs h
      refine ⟨?_, ?_, by have hc := countRules_cons r rest; omega⟩
      · simp only [flatten]
        rw [List.getElem?_append_left (by rw [flattenRule_length]; exact hi)]
        exact h1
      · simp only [flatten]
        rw [List.drop_append_of_le_length (by rw [flattenRule_length]; omega),
          List.take_append_of_le_length (by rw [List.length_drop, flattenRule_length]; omega)]
        exact h2
    · have hi2 : r.count ≤ i := Nat.le_of_not_lt hi
      rw [List.getElem?_append_right (by rw [rule_preorder_length]; exact hi2),
        rule_preorder_length] at h
      obtain ⟨h1, h2, h3⟩ := flatten_at (n + r.count) rest (i - r.count) d subs h
      refine ⟨?_, ?_, by have hc := countRules_cons r rest; omega⟩
      · simp only [flatten]
        rw [List.getElem?_append_right (by rw [flattenRule_length]; exact hi2),
          flattenRule_length, h1]
        rw [show n + r.count + (i - r.count) + 1 + countRules subs = n + i + 1 + countRules subs
          by omega]
      · simp only [flatten]
        rw [List.drop_append_eq_append_drop, flattenRule_length,
          List.drop_eq_nil_of_le (by rw [flattenRule_length]; omega), List.nil_append,
          show i + 1 - r.count = i - r.count + 1 by omega, h2,
          show n + r.count + (i - r.count) + 1 = n + i + 1 by omega]
end

/-! ## Claims on the linearizer -/

/-- Claim C1 (evaluation at the spec's own example): for the forest
`[A, B{subrules:[C, D{subrules:[E]}]}, F]` the nesting depths are `[0,0,1,1,2,0]`, but
the six rules returned by `npf_rule_iterate` over its linearization carry the levels
`[0,0,1,1,2,1]` (the seventh call returns `NULL`): after `E`, where the groups `D` and
`B` both end, only one level is popped. -/
theorem iterate_example_levels :
    forestDepths 0 exampleForest = [0, 0, 1, 1, 2, 0] ∧
    iterateReport 7 (_npf_ruleset_transform exampleForest) =
      some ([0, 0, 1, 1, 2, 1], [true, true, true, true, true, true, false]) := by
  constructor
  · decide
  · decide

/-- Claim C2: in the output of `_npf_ruleset_transform`, a rule that carried a
`"subrules"` list and is the `i`-th rule (0-based) of the forest in pre-order sits at
index `i` with its fields, without `"subrules"`, and with `"skip-to"` set from
`k = i + 1 + (number of rules in its subtree)`, which is the value read back when the
forest has fewer than `2 ^ 32` rules (the count of a proplib array is an `unsigned`);
`k` is the length of the output when the recursion over its subrules finished (the
recursion started on an output of `i + 1` rules), and the output elements at
`i+1 .. k-1` are what that recursion appended, which is the subtree in pre-order.  The
forest `[A, B{subrules:[C, D{subrules:[E]}]}, F]` gives
`[A, B(skip-to=5), C, D(skip-to=5), E, F]`. -/
theorem transform_skipto_subtree (F : List Rule)
    (i : Nat) (d : PropDict) (subs : List Rule)
    (h : (preorder F)[i]? = some (.mk d (some subs))) :
    (_npf_ruleset_transform F)[i]? =
        some (.mk (prop_dictionary_set_uint32 d "skip-to" (i + 1 + countRules subs)) none)
    ∧ (countRules F < 4294967296 →
        ∀ r, (_npf_ruleset_transform F)[i]? = some r → r.skipto = i + 1 + countRules subs)
    ∧ i + 1 + countRules subs ≤ (_npf_ruleset_transform F).length
    ∧ (∀ pre : List Rule, pre.length = i + 1 →
        (_npf_ruleset_transform1 pre subs).length = i + 1 + countRules subs
        ∧ _npf_ruleset_transform1 pre subs =
            pre ++ ((_npf_ruleset_transform F).drop (i + 1)).take (countRules subs))
    ∧ (((_npf_ruleset_transform F).drop (i + 1)).take (countRules subs)).map Rule.base
        = (preorder subs).map Rule.base
    ∧ _npf_ruleset_transform exampleForest =
        [namedRule "A", skipRule "B" 5, namedRule "C", skipRule "D" 5, namedRule "E",
          namedRule "F"] := by
  obtain ⟨h1, h2, h3⟩ := flatten_at 0 F i d subs h
  have h1k : (_npf_ruleset_transform F)[i]? =
      some (.mk (prop_dictionary_set_uint32 d "skip-to" (i + 1 + countRules subs)) none) := by
    rw [transform_eq, h1]
    simp [prop_dictionary_set_uint32]
  refine ⟨h1k, ?_, ?_, ?_, ?_, rfl⟩
  · intro hF r hr
    have hk : i + 1 + countRules subs < 4294967296 := by omega
    rw [h1k] at hr
    cases hr
    exact skipto_setSkipTo d _ hk
  · rw [transform_eq, flatten_length]
    exact h3
  · intro pre hpre
    rw [transform1_eq, transform_eq, h2, hpre]
    simp [flatten_length, hpre]
  · rw [transform_eq, h2, flatten_base]

/-- C2 at the example forest: the group `B` is rule 1 in pre-order, is emitted with
`"skip-to"` 5, and 5 is the value the iterator reads back. -/
theorem transform_skipto_subtree_witness :
    (preorder exampleForest)[1]? =
      some (.mk (prop_dictionary_set_cstring [] "name" "B")
        (some [namedRule "C", namedGroup "D" [namedRule "E"]]))
    ∧ (_npf_ruleset_transform exampleForest)[1]? = some (skipRule "B" 5)
    ∧ (skipRule "B" 5).skipto = 5 :=
  ⟨rfl,
   (transform_skipto_subtree exampleForest 1
      (prop_dictionary_set_cstring [] "name" "B")
      [namedRule "C", namedGroup "D" [namedRule "E"]] rfl).1,
   (transform_skipto_subtree exampleForest 1
      (prop_dictionary_set_cstring [] "name" "B")
      [namedRule "C", namedGroup "D" [namedRule "E"]] rfl).2.1 (by decide) _
     ((transform_skipto_subtree exampleForest 1
        (prop_dictionary_set_cstring [] "name" "B")
        [namedRule "C", namedGroup "D" [namedRule "E"]] rfl).1)⟩

/-- Claim C3: the output of `_npf_ruleset_transform` has as many elements as the
forest has rules (group headers included), no output rule has `"subrules"`, and with
`"skip-to"` ignored the output is the pre-order sequence of the rules of the forest
without their `"subrules"`; the empty forest gives the empty list. -/
theorem transform_preorder (F : List Rule) :
    (_npf_ruleset_transform F).length = countRules F
    ∧ (∀ r ∈ _npf_ruleset_transform F, r.subrules = none)
    ∧ (_npf_ruleset_transform F).map Rule.base = (preorder F).map Rule.base
    ∧ _npf_ruleset_transform [] = [] := by
  refine ⟨?_, ?_, ?_, rfl⟩
  · rw [transform_eq, flatten_length]
  · rw [transform_eq]
    exact flatten_subrules 0 F
  · rw [transform_eq, flatten_base]

/-- Claim C4, as stated, fails: the group header `B` with a present but empty
`"subrules"` list is emitted with `"skip-to"` 1, whereas the same rule without the
list is emitted without `"skip-to"`. -/
theorem transform_empty_subrules_counterexample :
    (_npf_ruleset_transform [namedGroup "B" []]).map
        (fun r => prop_dictionary_get_uint32 r.dict "skip-to") = [some 1]
    ∧ (_npf_ruleset_transform [namedRule "B"]).map
        (fun r => prop_dictionary_get_uint32 r.dict "skip-to") = [none] := by
  constructor
  · decide
  · decide

/-- Claim C4, amended: a rule whose `"subrules"` list is present but empty, being the
`i`-th rule of the forest in pre-order, is emitted at index `i` without `"subrules"`
and with `"skip-to"` set from `i + 1`, the length of the output right after the rule
itself was added; in a forest of fewer than `2 ^ 32` rules the field reads back as
`i + 1`, so it is present. -/
theorem transform_empty_subrules (F : List Rule)
    (i : Nat) (d : PropDict) (h : (preorder F)[i]? = some (.mk d (some []))) :
    (_npf_ruleset_transform F)[i]? =
        some (.mk (prop_dictionary_set_uint32 d "skip-to" (i + 1)) none)
    ∧ (countRules F < 4294967296 →
        prop_dictionary_get_uint32 (prop_dictionary_set_uint32 d "skip-to" (i + 1)) "skip-to"
          = some (i + 1)) := by
  obtain ⟨h1, _, h3⟩ := flatten_at 0 F i d [] h
  have hc : countRules [] = 0 := rfl
  rw [hc] at h1 h3
  constructor
  · rw [transform_eq, h1]
    simp [prop_dictionary_set_uint32]
  · intro hF
    have hk : i + 1 < 4294967296 := by omega
    simp [prop_dictionary_get_uint32, prop_dictionary_set_uint32,
      prop_dictionary_get_set_self, Nat.mod_eq_of_lt hk, hk]

/-- C4 amended, at the forest `[A, B{subrules:[]}]`: `B` gets `"skip-to"` 2. -/
theorem transform_empty_subrules_witness :
    (preorder [namedRule "A", namedGroup "B" []])[1]? =
      some (.mk (prop_dictionary_set_cstring [] "name" "B") (some []))
    ∧ (_npf_ruleset_transform [namedRule "A", namedGroup "B" []])[1]? = some (skipRule "B" 2) :=
  ⟨rfl,
   (transform_empty_subrules [namedRule "A", namedGroup "B" []] 1
      (prop_dictionary_set_cstring [] "name" "B") rfl).1⟩

/-! ## The iterator on arbitrary lists -/

theorem iterate_end (ncf : nl_config) (h : ncf.ncf_rule_iter = some []) :
    npf_rule_iterate ncf =
      .ok (none, { ncf with ncf_cur_rule := none, ncf_rule_iter := none }) := by
  simp [npf_rule_iterate, _npf_rule_iterate1, h]

theorem iterate_step (ncf : nl_config) (r : Rule) (rest : List Rule)
    (h : ncf.ncf_rule_iter = some (r :: rest))
    (h0 : ncf.ncf_reduce[0]?.getD 0 = 0)
    (hc : ncf.ncf_counter + 1 < 4294967296)
    (hn : ncf.ncf_nlevel + (if r.skipto ≠ 0 then 1 else 0) ≤ 15) :
    ∃ ncf1, npf_rule_iterate ncf = .ok (some (r, ncf.ncf_nlevel), ncf1)
      ∧ ncf1.ncf_rule_iter = some rest
      ∧ ncf1.ncf_reduce[0]?.getD 0 = 0
      ∧ ncf1.ncf_counter = ncf.ncf_counter + 1
      ∧ ncf1.ncf_nlevel ≤ ncf.ncf_nlevel + (if r.skipto ≠ 0 then 1 else 0) := by
  have hcm : (ncf.ncf_counter + 1) % 4294967296 = ncf.ncf_counter + 1 := Nat.mod_eq_of_lt hc
  by_cases hs : r.skipto = 0
  · simp only [hs, ne_eq, not_true_eq_false, if_false, Nat.add_zero] at hn
    have h16 : ¬ (16 ≤ ncf.ncf_nlevel) := by omega
    have hpop : ncf.ncf_reduce[ncf.ncf_nlevel]?.getD 0 = ncf.ncf_counter + 1 →
        0 < ncf.ncf_nlevel := by
      intro heq
      rcases Nat.eq_zero_or_pos ncf.ncf_nlevel with hz | hz
      · rw [hz, h0] at heq
        omega
      · exact hz
    unfold npf_rule_iterate _npf_rule_iterate1
    simp only [h, hs, hcm]
    simp only [Option.isNone_some, Bool.false_eq_true, if_false, ne_eq, not_true_eq_false, h,
      h16, hcm]
    split_ifs with h1 h2
    · exact ⟨_, rfl, rfl, h0, rfl, Nat.sub_le _ _⟩
    · exact absurd (hpop h1) h2
    · exact ⟨_, rfl, rfl, h0, rfl, Nat.le_refl _⟩
  · simp only [hs, ne_eq, not_false_eq_true, if_true] at hn
    have hlm : (ncf.ncf_nlevel + 1) % 4294967296 = ncf.ncf_nlevel + 1 :=
      Nat.mod_eq_of_lt (by omega)
    have h16 : ¬ (16 ≤ ncf.ncf_nlevel + 1) := by omega
    have hset0 : (ncf.ncf_reduce.set (ncf.ncf_nlevel + 1) r.skipto)[0]?.getD 0 = 0 := by
      rw [List.getElem?_set_ne (by omega)]
      exact h0
    have hpos : 0 < ncf.ncf_nlevel + 1 := Nat.succ_pos _
    unfold npf_rule_iterate _npf_rule_iterate1
    simp only [h, hs, hcm, hlm]
    simp only [Option.isNone_some, Bool.false_eq_true, if_false, ne_eq, not_false_eq_true,
      if_true, h, h16, hpos, hlm, hcm]
    split_ifs with h1
    · exact ⟨_, rfl, rfl, hset0, rfl, by simp⟩
    · exact ⟨_, rfl, rfl, hset0, rfl, by simp⟩

theorem pushCount_cons (r : Rule) (rest : List Rule) :
    pushCount (r :: rest) = pushCount rest + (if r.skipto ≠ 0 then 1 else 0) := by
  simp [pushCount, List.countP_cons]

theorem iterate_init (ncf : nl_config) (rs : List Rule)
    (hi : ncf.ncf_rule_iter = none) (hr : ncf.ncf_rules_list = some rs) :
    npf_rule_iterate ncf =
      npf_rule_iterate { ncf with ncf_rule_iter := some rs, ncf_nlevel := 0,
                                  ncf_reduce := ncf.ncf_reduce.set 0 0, ncf_counter := 0 } := by
  simp [npf_rule_iterate, _npf_rule_iterate1, hi, hr]

theorem iterateCalls_succ_congr (n : Nat) (ncf ncf1 : nl_config)
    (h : npf_rule_iterate ncf = npf_rule_iterate ncf1) :
    iterateCalls (n + 1) ncf = iterateCalls (n + 1) ncf1 := by
  simp only [iterateCalls, h]

theorem iterateCalls_run : ∀ (rest : List Rule) (ncf : nl_config),
    ncf.ncf_rule_iter = some rest →
    ncf.ncf_reduce[0]?.getD 0 = 0 →
    ncf.ncf_counter + rest.length < 4294967296 →
    ncf.ncf_nlevel + pushCount rest ≤ 15 →
    ∃ levels ncf1, levels.length = rest.length ∧
      iterateCalls (rest.length + 1) ncf = .ok ((rest.zip levels).map some ++ [none], ncf1)
  | [], ncf, h, _, _, _ => by
    refine ⟨[], { ncf with ncf_cur_rule := none, ncf_rule_iter := none }, rfl, ?_⟩
    simp only [iterateCalls, iterate_end ncf h, List.length_nil, Nat.zero_add]
    rfl
  | r :: rest, ncf, h, h0, hc, hn => by
    rw [pushCount_cons] at hn
    rw [List.length_cons] at hc
    obtain ⟨ncf1, e1, hi1, h01, hc1, hn1⟩ :=
      iterate_step ncf r rest h h0 (by omega) (by omega)
    obtain ⟨levels, ncf2, hl, e2⟩ :=
      iterateCalls_run rest ncf1 hi1 h01 (by omega) (by omega)
    refine ⟨ncf.ncf_nlevel :: levels, ncf2, by simp [hl], ?_⟩
    rw [List.length_cons, iterateCalls, e1]
    simp only [e2]
    rfl

theorem iterate_step_bounds (ncf : nl_config) (r : Rule) (rest : List Rule)
    (h : ncf.ncf_rule_iter = some (r :: rest))
    (hs : r.skipto ≠ 0) (hn : ncf.ncf_nlevel = 15) :
    npf_rule_iterate ncf = .error .reduceBounds := by
  have hs1 : ¬ r.skipto = 0 := hs
  unfold npf_rule_iterate _npf_rule_iterate1
  simp only [h, hn]
  simp only [Option.isNone_some, Bool.false_eq_true, if_false, ne_eq, h, hn, if_pos hs1]
  rfl

theorem iterateCalls_run_any : ∀ (rest : List Rule) (ncf : nl_config),
    ncf.ncf_rule_iter = some rest →
    ncf.ncf_reduce[0]?.getD 0 = 0 →
    ncf.ncf_counter + rest.length < 4294967296 →
    ncf.ncf_nlevel ≤ 15 →
    (∃ levels ncf1, levels.length = rest.length ∧
      iterateCalls (rest.length + 1) ncf = .ok ((rest.zip levels).map some ++ [none], ncf1))
    ∨ iterateCalls (rest.length + 1) ncf = .error .reduceBounds
  | [], ncf, h, h0, hc, _ =>
    Or.inl (iterateCalls_run [] ncf h h0 hc (by simp [pushCount]; omega))
  | r :: rest, ncf, h, h0, hc, hn => by
    rw [List.length_cons] at hc
    by_cases hb : ncf.ncf_nlevel + (if r.skipto ≠ 0 then 1 else 0) ≤ 15
    · obtain ⟨ncf1, e1, hi1, h01, hc1, hn1⟩ := iterate_step ncf r rest h h0 (by omega) hb
      rcases iterateCalls_run_any rest ncf1 hi1 h01 (by omega) (by omega) with hok | herr
      · obtain ⟨levels, ncf2, hl, e2⟩ := hok
        refine Or.inl ⟨ncf.ncf_nlevel :: levels, ncf2, by simp [hl], ?_⟩
        rw [List.length_cons, iterateCalls, e1]
        simp only [e2]
        rfl
      · refine Or.inr ?_
        rw [List.length_cons, iterateCalls, e1]
        simp only [herr]
    · have hs : r.skipto ≠ 0 := by
        intro hz
        simp [hz] at hb
        omega
      have h15 : ncf.ncf_nlevel = 15 := by
        simp only [hs, ne_eq, not_false_eq_true, if_true] at hb
        omega
      refine Or.inr ?_
      rw [List.length_cons, iterateCalls, iterate_step_bounds ncf r rest h hs h15]

/-! ## Claims on the iterator -/

/-- Claim C5, as stated, fails: in the two-element list `[A(skip-to=100), B]` the
`"skip-to"` of `A` exceeds the length of the list, so the list is no pre-order
flattening, yet the three calls of `npf_rule_iterate` return `A` at level 0, `B` at
level 1 and then `NULL`, without any failure. -/
theorem iterate_malformed_counterexample :
    [skipRule "A" 100, namedRule "B"].map Rule.skipto = [100, 0]
    ∧ [skipRule "A" 100, namedRule "B"].length = 2
    ∧ iterateReport 3 [skipRule "A" 100, namedRule "B"] = some ([0, 1], [true, true, false]) := by
  refine ⟨?_, rfl, ?_⟩
  · decide
  · decide

/-- Claim C5, amended: `npf_rule_iterate` does not validate `"skip-to"` values.  For
every rule list of fewer than `2 ^ 32` elements, whatever its `"skip-to"` values are,
the successive calls either return every rule of the list, in order, each with a
level, and then `NULL`, or run into the index 16 of `ncf_reduce`; the assertion never
fails and no failure is signalled.  When at most 15 rules carry a non-zero `"skip-to"`
the calls return every rule and then `NULL`. -/
theorem iterate_no_validation (rs : List Rule) (hlen : rs.length < 4294967296) :
    ((∃ levels ncf1, levels.length = rs.length ∧
        iterateCalls (rs.length + 1) (configWithRules rs) =
          .ok ((rs.zip levels).map some ++ [none], ncf1))
      ∨ iterateCalls (rs.length + 1) (configWithRules rs) = .error .reduceBounds)
    ∧ (pushCount rs ≤ 15 →
        ∃ levels ncf1, levels.length = rs.length ∧
          iterateCalls (rs.length + 1) (configWithRules rs) =
            .ok ((rs.zip levels).map some ++ [none], ncf1)) := by
  have hinit := iterate_init (configWithRules rs) rs rfl rfl
  rw [iterateCalls_succ_congr rs.length _ _ hinit]
  constructor
  · exact iterateCalls_run_any rs _ rfl (by simp [configWithRules, npf_config_create])
      (by simpa using hlen) (by simp)
  · intro hp
    exact iterateCalls_run rs _ rfl (by simp [configWithRules, npf_config_create])
      (by simpa using hlen) (by simpa using hp)

/-- C5 amended, at the malformed list `[A(skip-to=100), B]`. -/
theorem iterate_no_validation_witness :
    [skipRule "A" 100, namedRule "B"].length < 4294967296
    ∧ pushCount [skipRule "A" 100, namedRule "B"] ≤ 15
    ∧ ∃ levels ncf1, levels.length = [skipRule "A" 100, namedRule "B"].length ∧
        iterateCalls ([skipRule "A" 100, namedRule "B"].length + 1)
            (configWithRules [skipRule "A" 100, namedRule "B"]) =
          .ok (([skipRule "A" 100, namedRule "B"].zip levels).map some ++ [none], ncf1) :=
  ⟨by decide, by decide,
   (iterate_no_validation [skipRule "A" 100, namedRule "B"] (by decide)).2 (by decide)⟩

/-! ## Section lists -/

theorem sectionNames_append (l : List PropDict) (d : PropDict) :
    sectionNames (l ++ [d]) = sectionNames l ++ [prop_dictionary_get_cstring_nocopy d "name"] := by
  simp [sectionNames]

theorem tableExistsLoop_iff (l : List PropDict) (name : String) :
    tableExistsLoop l name = true ↔ some name ∈ sectionNames l := by
  induction l with
  | nil => simp [tableExistsLoop, sectionNames]
  | cons d rest ih =>
    have hs : sectionNames (d :: rest) =
        prop_dictionary_get_cstring_nocopy d "name" :: sectionNames rest := rfl
    rw [hs, List.mem_cons]
    cases hd : prop_dictionary_get_cstring_nocopy d "name" with
    | none =>
      simp only [tableExistsLoop, hd, ih]
      simp
    | some tname =>
      by_cases hn : tname = name
      · simp [tableExistsLoop, hd, hn]
      · have hn2 : ¬ name = tname := fun h => hn h.symm
        simp only [tableExistsLoop, hd, hn, if_false, ih, Option.some.injEq, hn2, false_or]

theorem arrayLookupLoop_named (l : List PropDict) (name : String)
    (hall : ∀ n ∈ sectionNames l, n.isSome = true) :
    arrayLookupLoop l "name" name = .ok (decide (some name ∈ sectionNames l)) := by
  induction l with
  | nil => simp [arrayLookupLoop, sectionNames]
  | cons d rest ih =>
    have hs : sectionNames (d :: rest) =
        prop_dictionary_get_cstring_nocopy d "name" :: sectionNames rest := rfl
    rw [hs] at hall ⊢
    have hrest : ∀ n ∈ sectionNames rest, n.isSome = true :=
      fun n hn => hall n (List.mem_cons_of_mem _ hn)
    cases hd : prop_dictionary_get_cstring_nocopy d "name" with
    | none =>
      have := hall none (by rw [hd]; exact List.mem_cons_self _ _)
      simp at this
    | some lname =>
      by_cases hn : name = lname
      · simp [arrayLookupLoop, hd, hn]
      · simp [arrayLookupLoop, hd, hn, ih hrest]

theorem sectionOk_append (items : List PropDict) (d : PropDict) (name : String)
    (hd : prop_dictionary_get_cstring_nocopy d "name" = some name)
    (hall : ∀ n ∈ sectionNames items, n.isSome = true)
    (hnd : (sectionNames items).Nodup)
    (hnew : some name ∉ sectionNames items) :
    SectionOk (some (items ++ [d])) := by
  refine ⟨items ++ [d], rfl, ?_, ?_⟩
  · intro n hn
    rw [sectionNames_append, List.mem_append, List.mem_singleton] at hn
    rcases hn with hn | hn
    · exact hall n hn
    · rw [hn, hd]; rfl
  · rw [sectionNames_append, hd]
    exact List.Nodup.append hnd (List.nodup_singleton _)
      (by
        intro a ha hb
        rw [List.mem_singleton] at hb
        exact hnew (hb ▸ ha))

theorem table_insert_spec (ncf : nl_config) (tables : List PropDict) (tl : PropDict)
    (name : String) (hl : ncf.ncf_table_list = some tables)
    (hname : prop_dictionary_get_cstring_nocopy tl "name" = some name) :
    npf_table_insert ncf tl =
      if some name ∈ sectionNames tables then .ok (.EEXIST, ncf)
      else .ok (.success, { ncf with ncf_table_list := some (tables ++ [tl]) }) := by
  have hiff := tableExistsLoop_iff tables name
  by_cases hm : some name ∈ sectionNames tables
  · have ht : tableExistsLoop tables name = true := hiff.mpr hm
    simp [npf_table_insert, hname, _npf_table_exists_p, hl, ht, hm]
  · have ht : tableExistsLoop tables name = false := by
      cases hb : tableExistsLoop tables name with
      | false => rfl
      | true => exact absurd (hiff.mp hb) hm
    simp [npf_table_insert, hname, _npf_table_exists_p, hl, ht, hm]

theorem rproc_insert_spec (ncf : nl_config) (rprocs : List PropDict) (rp : PropDict)
    (name : String) (hl : ncf.ncf_rproc_list = some rprocs)
    (hall : ∀ n ∈ sectionNames rprocs, n.isSome = true)
    (hname : prop_dictionary_get_cstring_nocopy rp "name" = some name) :
    npf_rproc_insert ncf rp =
      if some name ∈ sectionNames rprocs then .ok (.EEXIST, ncf)
      else .ok (.success, { ncf with ncf_rproc_list := some (rprocs ++ [rp]) }) := by
  have hlook := arrayLookupLoop_named rprocs name hall
  by_cases hm : some name ∈ sectionNames rprocs
  · simp [npf_rproc_insert, hname, npf_rproc_exists_p, _npf_prop_array_lookup, hl, hlook, hm]
  · simp [npf_rproc_insert, hname, npf_rproc_exists_p, _npf_prop_array_lookup, hl, hlook, hm]

theorem alg_load_spec (ncf : nl_config) (algs : List PropDict) (name : String)
    (hl : ncf.ncf_alg_list = some algs)
    (hall : ∀ n ∈ sectionNames algs, n.isSome = true) :
    _npf_alg_load ncf name =
      if some name ∈ sectionNames algs then .ok (.EEXIST, ncf)
      else .ok (.success,
        { ncf with ncf_alg_list := some (algs ++ [prop_dictionary_set_cstring [] "name" name]) }) := by
  have hlook := arrayLookupLoop_named algs name hall
  by_cases hm : some name ∈ sectionNames algs
  · simp [_npf_alg_load, _npf_prop_array_lookup, hl, hlook, hm]
  · simp [_npf_alg_load, _npf_prop_array_lookup, hl, hlook, hm]

theorem get_cstring_set_cstring (d : PropDict) (key val : String) :
    prop_dictionary_get_cstring_nocopy (prop_dictionary_set_cstring d key val) key = some val := by
  simp [prop_dictionary_get_cstring_nocopy, prop_dictionary_set_cstring,
    prop_dictionary_get_set_self]

theorem call_run_namesOk (ncf : nl_config) (c : ConfigCall) (h : NamesOk ncf) :
    ∃ ncf1, c.run ncf = .ok ncf1 ∧ NamesOk ncf1 := by
  obtain ⟨⟨tables, ht, hta, htn⟩, ⟨rprocs, hr, hra, hrn⟩, ⟨algs, ha, haa, han⟩⟩ := h
  have hok : NamesOk ncf := ⟨⟨tables, ht, hta, htn⟩, ⟨rprocs, hr, hra, hrn⟩, ⟨algs, ha, haa, han⟩⟩
  cases c with
  | table_insert tl =>
    cases hname : prop_dictionary_get_cstring_nocopy tl "name" with
    | none =>
      refine ⟨ncf, ?_, hok⟩
      simp [ConfigCall.run, npf_table_insert, hname, Except.map]
    | some name =>
      by_cases hm : some name ∈ sectionNames tables
      · refine ⟨ncf, ?_, hok⟩
        simp [ConfigCall.run, table_insert_spec ncf tables tl name ht hname, hm, Except.map]
      · refine ⟨{ ncf with ncf_table_list := some (tables ++ [tl]) }, ?_, ?_⟩
        · simp [ConfigCall.run, table_insert_spec ncf tables tl name ht hname, hm, Except.map]
        · exact ⟨sectionOk_append tables tl name hname hta htn hm,
            ⟨rprocs, hr, hra, hrn⟩, ⟨algs, ha, haa, han⟩⟩
  | rproc_insert rp =>
    cases hname : prop_dictionary_get_cstring_nocopy rp "name" with
    | none =>
      refine ⟨ncf, ?_, hok⟩
      simp [ConfigCall.run, npf_rproc_insert, hname, Except.map]
    | some name =>
      by_cases hm : some name ∈ sectionNames rprocs
      · refine ⟨ncf, ?_, hok⟩
        simp [ConfigCall.run, rproc_insert_spec ncf rprocs rp name hr hra hname, hm, Except.map]
      · refine ⟨{ ncf with ncf_rproc_list := some (rprocs ++ [rp]) }, ?_, ?_⟩
        · simp [ConfigCall.run, rproc_insert_spec ncf rprocs rp name hr hra hname, hm,
            Except.map]
        · exact ⟨⟨tables, ht, hta, htn⟩,
            sectionOk_append rprocs rp name hname hra hrn hm, ⟨algs, ha, haa, han⟩⟩
  | alg_load name =>
    by_cases hm : some name ∈ sectionNames algs
    · refine ⟨ncf, ?_, hok⟩
      simp [ConfigCall.run, alg_load_spec ncf algs name ha haa, hm, Except.map]
    · refine ⟨{ ncf with
          ncf_alg_list := some (algs ++ [prop_dictionary_set_cstring [] "name" name]) }, ?_, ?_⟩
      · simp [ConfigCall.run, alg_load_spec ncf algs name ha haa, hm, Except.map]
      · exact ⟨⟨tables, ht, hta, htn⟩, ⟨rprocs, hr, hra, hrn⟩,
          sectionOk_append algs _ name (get_cstring_set_cstring [] "name" name) haa han hm⟩

theorem runCalls_namesOk : ∀ (calls : List ConfigCall) (ncf : nl_config), NamesOk ncf →
    ∃ ncf1, runCalls ncf calls = .ok ncf1 ∧ NamesOk ncf1
  | [], ncf, h => ⟨ncf, rfl, h⟩
  | c :: rest, ncf, h => by
    obtain ⟨ncf1, e1, h1⟩ := call_run_namesOk ncf c h
    obtain ⟨ncf2, e2, h2⟩ := runCalls_namesOk rest ncf1 h1
    exact ⟨ncf2, by simp [runCalls, e1, e2], h2⟩

theorem namesOk_create : NamesOk npf_config_create :=
  ⟨⟨[], rfl, by simp [sectionNames], by simp [sectionNames]⟩,
   ⟨[], rfl, by simp [sectionNames], by simp [sectionNames]⟩,
   ⟨[], rfl, by simp [sectionNames], by simp [sectionNames]⟩⟩

theorem mem_sectionNames_iff (l : List PropDict) (name : String) :
    some name ∈ sectionNames l ↔
      ∃ t ∈ l, prop_dictionary_get_cstring_nocopy t "name" = some name := by
  simp [sectionNames, List.mem_map]

theorem table_create_name (name : String) (id : Nat) (type : Int) :
    prop_dictionary_get_cstring_nocopy (npf_table_create name id type) "name" = some name := by
  have h1 : ("name" : String) ≠ "entries" := by decide
  have h2 : ("name" : String) ≠ "type" := by decide
  have h3 : ("name" : String) ≠ "id" := by decide
  simp only [npf_table_create, prop_dictionary_get_cstring_nocopy, prop_dictionary_set_int32,
    prop_dictionary_set_uint64, prop_dictionary_set_cstring]
  rw [prop_dictionary_get_set_ne _ _ _ _ h1, prop_dictionary_get_set_ne _ _ _ _ h2,
    prop_dictionary_get_set_ne _ _ _ _ h3, prop_dictionary_get_set_self]

/-! ## Claims on the section lists -/

/-- Claim C6, as stated for every configuration, fails: the configuration imported by
`npf_config_import` from a document without `"tables"` has a `NULL` table list, and
there the insertion of the table `npf_table_create("a", 1, 0)`, whose name is not
present, does not return 0 and append the table: `_npf_table_exists_p` advances an
iterator taken over the `NULL` array. -/
theorem table_insert_null_list_counterexample :
    npf_config_import (internalizeOnly [60] rootWithoutTables) [60]
      = some (_npf_config_consdict rootWithoutTables)
    ∧ (_npf_config_consdict rootWithoutTables).ncf_table_list.isNone = true
    ∧ prop_dictionary_get_cstring_nocopy (npf_table_create "a" 1 0) "name" = some "a"
    ∧ npf_table_insert (_npf_config_consdict rootWithoutTables) (npf_table_create "a" 1 0)
        = .error .nullArray :=
  ⟨rfl, rfl, rfl, rfl⟩

/-- Claim C6, amended: in a configuration whose table list is present, inserting with
`npf_table_insert` a table whose name is the name of a table of the list returns
`EEXIST` and leaves the configuration, hence the table list, unchanged; inserting a
table whose name is the name of no table of the list returns 0 and appends exactly
that table at the end of the list. -/
theorem table_insert_unique (ncf : nl_config) (tables : List PropDict) (tl : PropDict)
    (name : String) (hl : ncf.ncf_table_list = some tables)
    (hname : prop_dictionary_get_cstring_nocopy tl "name" = some name) :
    ((∃ t ∈ tables, prop_dictionary_get_cstring_nocopy t "name" = some name) →
        npf_table_insert ncf tl = .ok (.EEXIST, ncf))
    ∧ ((∀ t ∈ tables, prop_dictionary_get_cstring_nocopy t "name" ≠ some name) →
        npf_table_insert ncf tl =
          .ok (.success, { ncf with ncf_table_list := some (tables ++ [tl]) })) := by
  have hspec := table_insert_spec ncf tables tl name hl hname
  constructor
  · intro hex
    rw [hspec, if_pos ((mem_sectionNames_iff tables name).mpr hex)]
  · intro hno
    have hm : some name ∉ sectionNames tables := by
      intro hmem
      obtain ⟨t, ht, hn⟩ := (mem_sectionNames_iff tables name).mp hmem
      exact hno t ht hn
    rw [hspec, if_neg hm]

/-- C6 on a fresh configuration: the table `a` is appended; a second table named `a`
is then refused with `EEXIST` and the list keeps its single entry. -/
theorem table_insert_unique_witness :
    npf_table_insert npf_config_create (npf_table_create "a" 1 0) =
        .ok (.success,
          { npf_config_create with ncf_table_list := some ([] ++ [npf_table_create "a" 1 0]) })
    ∧ npf_table_insert
          { npf_config_create with ncf_table_list := some [npf_table_create "a" 1 0] }
          (npf_table_create "a" 2 1) =
        .ok (.EEXIST,
          { npf_config_create with ncf_table_list := some [npf_table_create "a" 1 0] }) :=
  ⟨(table_insert_unique npf_config_create [] (npf_table_create "a" 1 0) "a" rfl
      (table_create_name "a" 1 0)).2 (by simp),
   (table_insert_unique { npf_config_create with ncf_table_list := some [npf_table_create "a" 1 0] }
      [npf_table_create "a" 1 0] (npf_table_create "a" 2 1) "a" rfl
      (table_create_name "a" 2 1)).1
      ⟨npf_table_create "a" 1 0, List.mem_singleton.mpr rfl, table_create_name "a" 1 0⟩⟩

/-- Claim C7: every finite sequence of `npf_table_insert`, `npf_rproc_insert` and
`_npf_alg_load` calls, successful or failing, run from `npf_config_create`, runs without
fault and ends in a configuration whose table list, rule-procedure list and ALG list
each consist of named entries with pairwise distinct names. -/
theorem names_unique_reachable (calls : List ConfigCall) :
    ∃ ncf tables rprocs algs,
      runCalls npf_config_create calls = .ok ncf
      ∧ ncf.ncf_table_list = some tables
      ∧ ncf.ncf_rproc_list = some rprocs
      ∧ ncf.ncf_alg_list = some algs
      ∧ (∀ n ∈ sectionNames tables ++ sectionNames rprocs ++ sectionNames algs, n.isSome = true)
      ∧ (sectionNames tables).Pairwise (fun a b => a ≠ b)
      ∧ (sectionNames rprocs).Pairwise (fun a b => a ≠ b)
      ∧ (sectionNames algs).Pairwise (fun a b => a ≠ b) := by
  obtain ⟨ncf, e, ⟨tables, ht, hta, htn⟩, ⟨rprocs, hr, hra, hrn⟩, ⟨algs, ha, haa, han⟩⟩ :=
    runCalls_namesOk calls npf_config_create namesOk_create
  refine ⟨ncf, tables, rprocs, algs, e, ht, hr, ha, ?_, htn, hrn, han⟩
  intro n hn
  rw [List.mem_append, List.mem_append] at hn
  rcases hn with (hn | hn) | hn
  · exact hta n hn
  · exact hra n hn
  · exact haa n hn

/-- Claim C8, as stated, fails: from `npf_config_create`, inserting the tables
`npf_table_create("a", 1, 0)` and `npf_table_create("b", 1, 0)` leaves a table list
whose two entries both have id 1. -/
theorem table_ids_counterexample :
    (runCalls npf_config_create
        [.table_insert (npf_table_create "a" 1 0),
         .table_insert (npf_table_create "b" 1 0)]).toOption.bind
      (fun ncf => ncf.ncf_table_list.map (fun l => (sectionNames l, tableIds l)))
      = some ([some "a", some "b"], [some 1, some 1]) := by
  decide

/-- Claim C8, amended: `npf_table_insert` looks at the name only.  Every sequence of
insertions of tables built with `npf_table_create`, run from `npf_config_create`, ends
without fault in a configuration whose table names are pairwise distinct, and there
the insertion of a table built with `npf_table_create` returns `EEXIST` when its name
is in the list and otherwise returns 0 and appends the table, whatever its id. -/
theorem table_insert_ignores_id (specs : List (String × Nat × Int)) :
    ∃ ncf tables,
      runCalls npf_config_create
          (specs.map (fun s => ConfigCall.table_insert (npf_table_create s.1 s.2.1 s.2.2)))
        = .ok ncf
      ∧ ncf.ncf_table_list = some tables
      ∧ (sectionNames tables).Pairwise (fun a b => a ≠ b)
      ∧ ∀ (name : String) (id : Nat) (type : Int),
          npf_table_insert ncf (npf_table_create name id type) =
            if some name ∈ sectionNames tables then .ok (.EEXIST, ncf)
            else .ok (.success,
              { ncf with ncf_table_list := some (tables ++ [npf_table_create name id type]) }) := by
  obtain ⟨ncf, e, ⟨tables, ht, _, htn⟩, _, _⟩ :=
    runCalls_namesOk (specs.map (fun s => ConfigCall.table_insert (npf_table_create s.1 s.2.1 s.2.2)))
      npf_config_create namesOk_create
  exact ⟨ncf, tables, e, ht, htn, fun name id type =>
    table_insert_spec ncf tables _ name ht (table_create_name name id type)⟩

/-! ## Claims on import and on rule code -/

/-- Claim C9, as stated, fails: a well-formed root document without `"version"`, and
one whose `"version"` is `NPF_VERSION + 1` whatever `NPF_VERSION` is, are both imported
by `npf_config_import` into a configuration whose rules list is the one of the
document. -/
theorem import_version_counterexample :
    (npf_config_import (internalizeOnly [60] (exampleRoot none)) [60]).map
        (fun ncf => ncf.ncf_rules_list) = some (some [namedRule "A"])
    ∧ ∀ NPF_VERSION : Nat,
        (npf_config_import (internalizeOnly [60] (exampleRoot (some (NPF_VERSION + 1)))) [60]).map
          (fun ncf => ncf.ncf_rules_list) = some (some [namedRule "A"]) :=
  ⟨rfl, fun _ => rfl⟩

/-- Claim C9, amended: `npf_config_import` does not read `"version"`.  Whenever the blob
internalizes to a document, whatever its `"version"` entry (absent or any number), the
call returns a configuration that holds the document as `ncf_dict` and whose section
lists are the entries of the document under `"algs"`, `"rules"`, `"rprocs"`, `"tables"`,
`"nat"` and `"conn-list"`. -/
theorem import_ignores_version (internalize : List UInt8 → Option RootDict)
    (blob : List UInt8) (doc : RootDict) (version : Option Nat)
    (h : internalize blob = some { doc with version := version }) :
    ∃ ncf, npf_config_import internalize blob = some ncf
      ∧ ncf.ncf_dict = some { doc with version := version }
      ∧ ncf.ncf_alg_list = doc.algs
      ∧ ncf.ncf_rules_list = doc.rules
      ∧ ncf.ncf_rproc_list = doc.rprocs
      ∧ ncf.ncf_table_list = doc.tables
      ∧ ncf.ncf_nat_list = doc.nat
      ∧ ncf.ncf_conn_list = doc.conn_list := by
  refine ⟨_npf_config_consdict { doc with version := version }, ?_, rfl, rfl, rfl, rfl, rfl,
    rfl, rfl⟩
  simp [npf_config_import, h]

/-- C9 amended, at a document whose `"version"` is 7. -/
theorem import_ignores_version_witness :
    internalizeOnly [60] (exampleRoot (some 7)) [60]
        = some { exampleRoot none with version := some 7 }
    ∧ ∃ ncf, npf_config_import (internalizeOnly [60] (exampleRoot (some 7))) [60] = some ncf
      ∧ ncf.ncf_dict = some { exampleRoot none with version := some 7 }
      ∧ ncf.ncf_alg_list = (exampleRoot none).algs
      ∧ ncf.ncf_rules_list = (exampleRoot none).rules
      ∧ ncf.ncf_rproc_list = (exampleRoot none).rprocs
      ∧ ncf.ncf_table_list = (exampleRoot none).tables
      ∧ ncf.ncf_nat_list = (exampleRoot none).nat
      ∧ ncf.ncf_conn_list = (exampleRoot none).conn_list :=
  ⟨rfl, import_ignores_version (internalizeOnly [60] (exampleRoot (some 7))) [60]
    (exampleRoot none) (some 7) rfl⟩

/-- Claim C10: for a tag other than `NPF_CODE_NC` and `NPF_CODE_BPF`, `npf_rule_setcode`
returns `ENOTSUP` and the rule is unchanged; for one of the two tags, the allocation
succeeding, it returns 0, `"code-type"` holds the tag (as `uint32_t`), `"code"` holds
a copy of the first `len` bytes of the buffer, and every other field, `"subrules"`
included, is as before. -/
theorem setcode_spec (NPF_CODE_NC NPF_CODE_BPF : Int) (alloc_ok : Bool) (rl : Rule)
    (type : Int) (code : List UInt8) (len : Nat) :
    (type ≠ NPF_CODE_NC → type ≠ NPF_CODE_BPF →
        npf_rule_setcode NPF_CODE_NC NPF_CODE_BPF alloc_ok rl type code len = (.ENOTSUP, rl))
    ∧ (type = NPF_CODE_NC ∨ type = NPF_CODE_BPF →
        (npf_rule_setcode NPF_CODE_NC NPF_CODE_BPF true rl type code len).1 = .success
        ∧ (npf_rule_setcode NPF_CODE_NC NPF_CODE_BPF true rl type code len).2.get "code-type"
            = some (.unum (toUint32 type))
        ∧ (0 ≤ type → type < 4294967296 →
            prop_dictionary_get_uint32
              (npf_rule_setcode NPF_CODE_NC NPF_CODE_BPF true rl type code len).2.dict "code-type"
              = some type.toNat)
        ∧ (npf_rule_setcode NPF_CODE_NC NPF_CODE_BPF true rl type code len).2.get "code"
            = some (.data (code.take len))
        ∧ (len ≤ code.length → (code.take len).length = len)
        ∧ (∀ i, i < len → (code.take len)[i]? = code[i]?)
        ∧ (∀ key, key ≠ "code-type" → key ≠ "code" →
            (npf_rule_setcode NPF_CODE_NC NPF_CODE_BPF true rl type code len).2.get key
              = rl.get key)
        ∧ (npf_rule_setcode NPF_CODE_NC NPF_CODE_BPF true rl type code len).2.subrules
            = rl.subrules) := by
  constructor
  · intro h1 h2
    simp [npf_rule_setcode, h1, h2]
  · intro ht
    have hne : ("code-type" : String) ≠ "code" := by decide
    have hmod : toUint32 type % 4294967296 = toUint32 type := by
      apply Nat.mod_eq_of_lt
      unfold toUint32
      omega
    have hres : npf_rule_setcode NPF_CODE_NC NPF_CODE_BPF true rl type code len =
        (.success, Rule.mk (prop_dictionary_set
          (prop_dictionary_set_uint32 rl.dict "code-type" (toUint32 type)) "code"
          (.data (code.take len))) rl.subrules) := by
      simp [npf_rule_setcode, ht, prop_data_create_data, Rule.dict, Rule.subrules]
    rw [hres]
    have hct : prop_dictionary_get (prop_dictionary_set
          (prop_dictionary_set_uint32 rl.dict "code-type" (toUint32 type)) "code"
          (.data (code.take len))) "code-type" = some (.unum (toUint32 type)) := by
      rw [prop_dictionary_get_set_ne _ _ _ _ hne, prop_dictionary_set_uint32,
        prop_dictionary_get_set_self, hmod]
    refine ⟨rfl, hct, ?_, ?_, ?_, ?_, ?_, rfl⟩
    · intro h0 h32
      have hlt : toUint32 type < 4294967296 := by unfold toUint32; omega
      have hv : toUint32 type = type.toNat := by unfold toUint32; omega
      show prop_dictionary_get_uint32 (prop_dictionary_set
          (prop_dictionary_set_uint32 rl.dict "code-type" (toUint32 type)) "code"
          (.data (code.take len))) "code-type" = some type.toNat
      unfold prop_dictionary_get_uint32
      rw [hct, ← hv]
      exact if_pos hlt
    · simp only [Rule.get, Rule.dict, prop_dictionary_get_set_self]
    · intro hle
      simp [List.length_take, hle]
    · intro i hi
      rw [List.getElem?_take_of_lt hi]
    · intro key hk1 hk2
      simp only [Rule.get, Rule.dict]
      rw [prop_dictionary_get_set_ne _ _ _ _ hk2, prop_dictionary_set_uint32,
        prop_dictionary_get_set_ne _ _ _ _ hk1]

/-- C10 with the tags 1 and 2: tag 3 is refused, tag 2 is stored with its two bytes of
code. -/
theorem setcode_spec_witness :
    npf_rule_setcode 1 2 true (namedRule "A") 3 [7, 9, 11] 2 = (.ENOTSUP, namedRule "A")
    ∧ (npf_rule_setcode 1 2 true (namedRule "A") 2 [7, 9, 11] 2).1 = .success
    ∧ (npf_rule_setcode 1 2 true (namedRule "A") 2 [7, 9, 11] 2).2.get "code"
        = some (.data [7, 9]) :=
  ⟨(setcode_spec 1 2 true (namedRule "A") 3 [7, 9, 11] 2).1 (by decide) (by decide),
   ((setcode_spec 1 2 true (namedRule "A") 2 [7, 9, 11] 2).2 (Or.inr rfl)).1,
   ((setcode_spec 1 2 true (namedRule "A") 2 [7, 9, 11] 2).2 (Or.inr rfl)).2.2.2.1⟩

/-! ## Claims on the skip-to position, the root document and the rule id -/

theorem split_at_subgroup (out : List Rule) (i c : Nat) (header : Rule)
    (hi : out[i]? = some header) :
    out = out.take i ++ header :: (out.drop (i + 1)).take c ++ out.drop (i + 1 + c) := by
  obtain ⟨hlt, hget⟩ := List.getElem?_eq_some.mp hi
  have h1 : out.drop i = header :: out.drop (i + 1) := by
    rw [List.drop_eq_getElem_cons hlt, hget]
  have h2 : out.drop (i + 1 + c) = (out.drop (i + 1)).drop c := by
    rw [List.drop_drop]
  calc out = out.take i ++ out.drop i := (List.take_append_drop i out).symm
    _ = out.take i ++ header :: out.drop (i + 1) := by rw [h1]
    _ = out.take i ++ header :: ((out.drop (i + 1)).take c ++ (out.drop (i + 1)).drop c) := by
        rw [List.take_append_drop]
    _ = out.take i ++ header :: (out.drop (i + 1)).take c ++ out.drop (i + 1 + c) := by
        rw [h2]; simp

theorem flatten_plain (n : Nat) : ∀ l : List Rule, (∀ r ∈ l, r.subrules = none) →
    flatten n l = l
  | [], _ => by simp [flatten]
  | .mk d none :: rest, h => by
    have hrest : ∀ r ∈ rest, r.subrules = none := fun r hr => h r (List.mem_cons_of_mem _ hr)
    simp [flatten, flattenRule, flatten_plain _ rest hrest]
  | .mk d (some subs) :: rest, h => by
    have := h (.mk d (some subs)) (List.mem_cons_self _ _)
    simp [Rule.subrules] at this

/-- Claim C11, as stated, fails: in the linearization `[A, B, C, D, E, F]` of the
example forest the subgroup of `B` is `C, D, E`, the first element after it is `F`, whose
1-based position is 6, and the `"skip-to"` of `B` is 5. -/
theorem skipto_one_based_counterexample :
    ruleNames (_npf_ruleset_transform exampleForest) =
      [some "A", some "B", some "C", some "D", some "E", some "F"]
    ∧ (_npf_ruleset_transform exampleForest).map Rule.skipto = [0, 5, 0, 5, 0, 0]
    ∧ List.indexOf (some "F") (ruleNames (_npf_ruleset_transform exampleForest)) + 1 = 6 := by
  refine ⟨?_, ?_, ?_⟩
  · decide
  · decide
  · decide

/-- Claim C11, amended: for a forest of fewer than `2 ^ 32` rules and a rule that headed
a subgroup, the output of `_npf_ruleset_transform` is `before ++ header :: subgroup ++
after`, where `subgroup` is the whole subtree of the rule in pre-order, and the
`"skip-to"` of the header is the number of elements of `before ++ header :: subgroup`:
the 0-based index, in the flattened list, of the first element after the subgroup (its
1-based position minus one). -/
theorem skipto_zero_based (F : List Rule) (i : Nat) (d : PropDict) (subs : List Rule)
    (hF : countRules F < 4294967296)
    (h : (preorder F)[i]? = some (.mk d (some subs))) :
    ∃ before header subgroup after,
      _npf_ruleset_transform F = before ++ header :: subgroup ++ after
      ∧ before.length = i
      ∧ header.dict = prop_dictionary_set_uint32 d "skip-to" (i + 1 + countRules subs)
      ∧ subgroup.map Rule.base = (preorder subs).map Rule.base
      ∧ header.skipto = (before ++ header :: subgroup).length
      ∧ (_npf_ruleset_transform F)[header.skipto]? = after.head? := by
  obtain ⟨h1, h2, h3⟩ := flatten_at 0 F i d subs h
  have hk : i + 1 + countRules subs < 4294967296 := by omega
  have h1k : (_npf_ruleset_transform F)[i]? =
      some (.mk (prop_dictionary_set_uint32 d "skip-to" (i + 1 + countRules subs)) none) := by
    rw [transform_eq, h1]
    simp [prop_dictionary_set_uint32]
  have hlen : (_npf_ruleset_transform F).length = countRules F := by
    rw [transform_eq, flatten_length]
  have hsub : (((_npf_ruleset_transform F).drop (i + 1)).take (countRules subs)).length
      = countRules subs := by
    rw [List.length_take, List.length_drop, hlen]
    omega
  have hsk : (Rule.mk (prop_dictionary_set_uint32 d "skip-to" (i + 1 + countRules subs))
      none).skipto = i + 1 + countRules subs := skipto_setSkipTo d _ hk
  refine ⟨(_npf_ruleset_transform F).take i, _,
    ((_npf_ruleset_transform F).drop (i + 1)).take (countRules subs),
    (_npf_ruleset_transform F).drop (i + 1 + countRules subs),
    split_at_subgroup _ i (countRules subs) _ h1k, ?_, rfl, ?_, ?_, ?_⟩
  · rw [List.length_take, hlen]
    omega
  · rw [transform_eq, h2, flatten_base]
  · rw [hsk, List.length_append, List.length_cons, hsub, List.length_take, hlen]
    omega
  · rw [hsk, List.head?_drop]

/-- C11 amended, at the example forest: the group `B` is rule 1 in pre-order. -/
theorem skipto_zero_based_witness :
    countRules exampleForest < 4294967296
    ∧ (preorder exampleForest)[1]? =
        some (.mk (prop_dictionary_set_cstring [] "name" "B")
          (some [namedRule "C", namedGroup "D" [namedRule "E"]]))
    ∧ ∃ before header subgroup after,
      _npf_ruleset_transform exampleForest = before ++ header :: subgroup ++ after
      ∧ before.length = 1
      ∧ header.dict = prop_dictionary_set_uint32 (prop_dictionary_set_cstring [] "name" "B")
          "skip-to" (1 + 1 + countRules [namedRule "C", namedGroup "D" [namedRule "E"]])
      ∧ subgroup.map Rule.base =
          (preorder [namedRule "C", namedGroup "D" [namedRule "E"]]).map Rule.base
      ∧ header.skipto = (before ++ header :: subgroup).length
      ∧ (_npf_ruleset_transform exampleForest)[header.skipto]? = after.head? :=
  ⟨by decide, rfl,
   skipto_zero_based exampleForest 1 (prop_dictionary_set_cstring [] "name" "B")
     [namedRule "C", namedGroup "D" [namedRule "E"]] (by decide) rfl⟩

theorem build_config_eq (NPF_VERSION : Nat) (ncf : nl_config) (F : List Rule)
    (hr : ncf.ncf_rules_list = some F) :
    _npf_build_config NPF_VERSION ncf =
      .ok ({ version := some (NPF_VERSION % 4294967296)
             rules := some (_npf_ruleset_transform F)
             algs := ncf.ncf_alg_list
             rprocs := ncf.ncf_rproc_list
             tables := ncf.ncf_table_list
             nat := ncf.ncf_nat_list
             conn_list := ncf.ncf_conn_list
             flush := some ncf.ncf_flush
             debug := ncf.ncf_debug },
           { ncf with ncf_rules_list := some (_npf_ruleset_transform F) }) := by
  simp [_npf_build_config, hr]

theorem export_eq (externalize : RootDict → Option (List UInt8)) (NPF_VERSION : Nat)
    (ncf : nl_config) (F : List Rule) (hd : ncf.ncf_dict = none)
    (hr : ncf.ncf_rules_list = some F) :
    npf_config_export externalize NPF_VERSION ncf =
      .ok (externalize
            { version := some (NPF_VERSION % 4294967296)
              rules := some (_npf_ruleset_transform F)
              algs := ncf.ncf_alg_list
              rprocs := ncf.ncf_rproc_list
              tables := ncf.ncf_table_list
              nat := ncf.ncf_nat_list
              conn_list := ncf.ncf_conn_list
              flush := some ncf.ncf_flush
              debug := ncf.ncf_debug },
           { ncf with ncf_rules_list := some (_npf_ruleset_transform F) }) := by
  simp only [npf_config_export, hd, build_config_eq NPF_VERSION ncf F hr]

/-- Claim C12: for every configuration that holds a rules section `F` and no root
document yet (as every configuration made by `npf_config_create` and entity insertions
does), `npf_config_build` returns the document made by `_npf_build_config` and keeps it
in `ncf_dict`; in it `"version"` is `NPF_VERSION` (as `uint32_t`), `"rules"` is the
linearization of `F`, `"algs"`, `"rprocs"`, `"tables"` and `"nat"` are the section
lists, `"flush"` is the flush flag, which `npf_config_create` leaves false, and
`"conn-list"` and `"debug"` are there exactly when the configuration holds them. -/
theorem build_config_document (NPF_VERSION : Nat) (ncf : nl_config) (F : List Rule)
    (hd : ncf.ncf_dict = none) (hr : ncf.ncf_rules_list = some F) :
    ∃ doc ncf1,
      _npf_build_config NPF_VERSION ncf = .ok (doc, ncf1)
      ∧ npf_config_build NPF_VERSION ncf = .ok (doc, { ncf1 with ncf_dict := some doc })
      ∧ ncf1 = { ncf with ncf_rules_list := some (_npf_ruleset_transform F) }
      ∧ doc.version = some (NPF_VERSION % 4294967296)
      ∧ (NPF_VERSION < 4294967296 → doc.version = some NPF_VERSION)
      ∧ doc.rules = some (_npf_ruleset_transform F)
      ∧ doc.algs = ncf.ncf_alg_list
      ∧ doc.rprocs = ncf.ncf_rproc_list
      ∧ doc.tables = ncf.ncf_table_list
      ∧ doc.nat = ncf.ncf_nat_list
      ∧ doc.flush = some ncf.ncf_flush
      ∧ doc.conn_list = ncf.ncf_conn_list
      ∧ doc.debug = ncf.ncf_debug
      ∧ npf_config_create.ncf_flush = false := by
  have hb := build_config_eq NPF_VERSION ncf F hr
  refine ⟨_, _, hb, ?_, rfl, rfl, ?_, rfl, rfl, rfl, rfl, rfl, rfl, rfl, rfl, rfl⟩
  · simp [npf_config_build, hd, hb]
  · intro hv
    simp [Nat.mod_eq_of_lt hv]

/-- C12 at the configuration made by `npf_config_create` whose rules section is the
example forest, with `NPF_VERSION` 19: the document has `"version"` 19, the six
flattened rules and `"flush"` false. -/
theorem build_config_document_witness :
    (configWithRules exampleForest).ncf_dict = none
    ∧ (configWithRules exampleForest).ncf_rules_list = some exampleForest
    ∧ ∃ doc ncf1,
      _npf_build_config 19 (configWithRules exampleForest) = .ok (doc, ncf1)
      ∧ doc.version = some 19
      ∧ doc.rules = some [namedRule "A", skipRule "B" 5, namedRule "C", skipRule "D" 5,
          namedRule "E", namedRule "F"]
      ∧ doc.flush = some false
      ∧ doc.conn_list = none
      ∧ doc.debug = none := by
  refine ⟨rfl, rfl, ?_⟩
  obtain ⟨doc, ncf1, h1, _, _, _, h5, h6, _, _, _, _, h11, h12, h13, _⟩ :=
    build_config_document 19 (configWithRules exampleForest) exampleForest rfl rfl
  exact ⟨doc, ncf1, h1, h5 (by decide), h6, h11, h12, h13⟩

/-- Claim C13 (evaluation at a failing input): a rule whose `"id"` holds the unsigned
64-bit value `2 ^ 32 + 5` has `npf_rule_getid` return 5, because the value goes through
the cast `(unsigned)id`; in general the result is the stored value modulo `2 ^ 32`, and
it is 0 when the field is absent. -/
theorem getid_truncates :
    prop_dictionary_get_uint64 (prop_dictionary_set_uint64 [] "id" 4294967301) "id"
      = some 4294967301
    ∧ npf_rule_getid (.mk (prop_dictionary_set_uint64 [] "id" 4294967301) none) = 5
    ∧ (∀ (rl : Rule) (v : Nat), prop_dictionary_get_uint64 rl.dict "id" = some v →
        npf_rule_getid rl = v % 4294967296)
    ∧ (∀ rl : Rule, prop_dictionary_get rl.dict "id" = none → npf_rule_getid rl = 0) := by
  refine ⟨by decide, by decide, ?_, ?_⟩
  · intro rl v hv
    simp [npf_rule_getid, hv]
  · intro rl hv
    simp [npf_rule_getid, prop_dictionary_get_uint64, hv]

/-- Claim C14 (evaluation at a failing input): in the forest of fifteen copies of
`G{subrules:[H{subrules:[x]}]}` every group header is nested inside at most one other
group, yet each copy leaves one level open, the first 43 calls of `npf_rule_iterate`
over the linearization end with the fifteenth `G` reported at level 14, and the 44th
call pushes at level 15 and indexes `ncf_reduce` at 16. -/
theorem iterate_leak_overflow :
    forestGroupsWithin 0 14 leakForest = true
    ∧ forestGroupsWithin 0 1 leakForest = true
    ∧ (iterateReport 43 (_npf_ruleset_transform leakForest)).map (fun p => p.1.getLast?)
        = some (some 14)
    ∧ iterateCalls 44 (configWithRules (_npf_ruleset_transform leakForest))
        = .error .reduceBounds := by
  refine ⟨by decide, by decide, by decide, rfl⟩

/-- Claim C17: `_npf_ruleset_transform` applied to an already flattened list returns
that list, with the same rules in the same order and the same `"skip-to"` values; hence
a second `_npf_build_config` on the configuration left by the first returns the same
root document and leaves the configuration as it is, and a second `npf_config_export`
externalizes the same document. -/
theorem transform_idempotent (F : List Rule) :
    _npf_ruleset_transform (_npf_ruleset_transform F) = _npf_ruleset_transform F
    ∧ (∀ (NPF_VERSION : Nat) (ncf : nl_config), ncf.ncf_rules_list = some F →
        ∃ doc ncf1, _npf_build_config NPF_VERSION ncf = .ok (doc, ncf1)
          ∧ doc.rules = some (_npf_ruleset_transform F)
          ∧ _npf_build_config NPF_VERSION ncf1 = .ok (doc, ncf1))
    ∧ (∀ (externalize : RootDict → Option (List UInt8)) (NPF_VERSION : Nat)
        (ncf : nl_config), ncf.ncf_dict = none → ncf.ncf_rules_list = some F →
        ∃ blob ncf1, npf_config_export externalize NPF_VERSION ncf = .ok (blob, ncf1)
          ∧ npf_config_export externalize NPF_VERSION ncf1 = .ok (blob, ncf1)) := by
  have hid : _npf_ruleset_transform (_npf_ruleset_transform F) = _npf_ruleset_transform F := by
    rw [transform_eq (_npf_ruleset_transform F)]
    apply flatten_plain
    rw [transform_eq]
    exact flatten_subrules 0 F
  refine ⟨hid, ?_, ?_⟩
  · intro NPF_VERSION ncf hr
    refine ⟨_, _, build_config_eq NPF_VERSION ncf F hr, rfl, ?_⟩
    rw [build_config_eq NPF_VERSION _ (_npf_ruleset_transform F) rfl, hid]
  · intro externalize NPF_VERSION ncf hd hr
    have he := export_eq externalize NPF_VERSION ncf F hd hr
    have he2 := export_eq externalize NPF_VERSION
      { ncf with ncf_rules_list := some (_npf_ruleset_transform F) }
      (_npf_ruleset_transform F) hd rfl
    rw [hid] at he2
    exact ⟨_, _, he, he2⟩

/-- C17 at the example forest: the flattened list is a fixed point, and so is the
configuration left by `_npf_build_config`. -/
theorem transform_idempotent_witness :
    _npf_ruleset_transform
        [namedRule "A", skipRule "B" 5, namedRule "C", skipRule "D" 5, namedRule "E",
          namedRule "F"]
      = [namedRule "A", skipRule "B" 5, namedRule "C", skipRule "D" 5, namedRule "E",
          namedRule "F"]
    ∧ ∃ doc ncf1, _npf_build_config 19 (configWithRules exampleForest) = .ok (doc, ncf1)
        ∧ doc.rules = some (_npf_ruleset_transform exampleForest)
        ∧ _npf_build_config 19 ncf1 = .ok (doc, ncf1) :=
  ⟨(transform_idempotent exampleForest).1,
   (transform_idempotent exampleForest).2.1 19 (configWithRules exampleForest) rfl⟩

/-! ## Exact steps of the iterator -/

theorem iterate_plain_step (ncf : nl_config) (r : Rule) (rest : List Rule)
    (h : ncf.ncf_rule_iter = some (r :: rest)) (hs : r.skipto = 0)
    (h0 : ncf.ncf_reduce[0]?.getD 0 = 0)
    (hc : ncf.ncf_counter + 1 < 4294967296) (hn : ncf.ncf_nlevel ≤ 15) :
    npf_rule_iterate ncf =
      .ok (some (r, ncf.ncf_nlevel),
        { ncf with ncf_cur_rule := some r, ncf_rule_iter := some rest,
                   ncf_counter := ncf.ncf_counter + 1,
                   ncf_nlevel :=
                     if ncf.ncf_reduce[ncf.ncf_nlevel]?.getD 0 = ncf.ncf_counter + 1
                     then ncf.ncf_nlevel - 1 else ncf.ncf_nlevel }) := by
  have hcm : (ncf.ncf_counter + 1) % 4294967296 = ncf.ncf_counter + 1 := Nat.mod_eq_of_lt hc
  have h16 : ¬ (16 ≤ ncf.ncf_nlevel) := by omega
  have hpop : ncf.ncf_reduce[ncf.ncf_nlevel]?.getD 0 = ncf.ncf_counter + 1 →
      0 < ncf.ncf_nlevel := by
    intro heq
    rcases Nat.eq_zero_or_pos ncf.ncf_nlevel with hz | hz
    · rw [hz, h0] at heq
      omega
    · exact hz
  unfold npf_rule_iterate _npf_rule_iterate1
  simp only [h, hs, hcm]
  simp only [Option.isNone_some, Bool.false_eq_true, if_false, ne_eq, not_true_eq_false, h,
    h16, hcm]
  split_ifs with h1 h2
  · rfl
  · exact absurd (hpop h1) h2
  · rfl

theorem iterate_push_step (ncf : nl_config) (r : Rule) (rest : List Rule)
    (h : ncf.ncf_rule_iter = some (r :: rest)) (hs : r.skipto ≠ 0)
    (hc : ncf.ncf_counter + 1 < 4294967296) (hn : ncf.ncf_nlevel + 1 ≤ 15) :
    npf_rule_iterate ncf =
      .ok (some (r, ncf.ncf_nlevel),
        { ncf with ncf_cur_rule := some r, ncf_rule_iter := some rest,
                   ncf_reduce := ncf.ncf_reduce.set (ncf.ncf_nlevel + 1) r.skipto,
                   ncf_counter := ncf.ncf_counter + 1,
                   ncf_nlevel :=
                     if (ncf.ncf_reduce.set (ncf.ncf_nlevel + 1) r.skipto)[ncf.ncf_nlevel + 1]?.getD 0
                         = ncf.ncf_counter + 1
                     then ncf.ncf_nlevel else ncf.ncf_nlevel + 1 }) := by
  have hs1 : ¬ r.skipto = 0 := hs
  have hcm : (ncf.ncf_counter + 1) % 4294967296 = ncf.ncf_counter + 1 := Nat.mod_eq_of_lt hc
  have hlm : (ncf.ncf_nlevel + 1) % 4294967296 = ncf.ncf_nlevel + 1 :=
    Nat.mod_eq_of_lt (by omega)
  have h16 : ¬ (16 ≤ ncf.ncf_nlevel + 1) := by omega
  have hpos : 0 < ncf.ncf_nlevel + 1 := Nat.succ_pos _
  unfold npf_rule_iterate _npf_rule_iterate1
  simp only [h, hcm, hlm]
  simp only [Option.isNone_some, Bool.false_eq_true, if_false, ne_eq, if_pos hs1, h, h16, hpos,
    hlm, hcm, if_true, not_false_eq_true]
  split_ifs with h1
  · rfl
  · rfl

theorem set_zero_getD (l : List Nat) : (l.set 0 0)[0]?.getD 0 = 0 := by
  cases l <;> simp

theorem iterate_call_started (rs : List Rule) (ncf : nl_config) (rest : List Rule)
    (hr : ncf.ncf_rules_list = some rs) (h0 : ncf.ncf_reduce[0]?.getD 0 = 0)
    (hi : ncf.ncf_rule_iter = some rest) (hn : ncf.ncf_nlevel ≤ 15)
    (hc : ncf.ncf_counter + rest.length < 4294967296) :
    npf_rule_iterate ncf = .error .reduceBounds ∨
      ∃ res ncf1, npf_rule_iterate ncf = .ok (res, ncf1) ∧ IterSafe rs ncf1 ∧
        (res.isSome = true → 1 ≤ ncf1.ncf_counter) := by
  cases rest with
  | nil =>
    refine Or.inr ⟨none, _, iterate_end ncf hi, ⟨hr, h0, Or.inl rfl⟩, ?_⟩
    intro hres
    simp at hres
  | cons r rest1 =>
    rw [List.length_cons] at hc
    by_cases hs : r.skipto = 0
    · refine Or.inr ⟨_, _, iterate_plain_step ncf r rest1 hi hs h0 (by omega) hn,
        ⟨hr, h0, Or.inr ⟨rest1, rfl, ?_, ?_⟩⟩, ?_⟩
      · show (if ncf.ncf_reduce[ncf.ncf_nlevel]?.getD 0 = ncf.ncf_counter + 1
            then ncf.ncf_nlevel - 1 else ncf.ncf_nlevel) ≤ 15
        split_ifs <;> omega
      · show ncf.ncf_counter + 1 + rest1.length < 4294967296
        omega
      · intro _
        show 1 ≤ ncf.ncf_counter + 1
        omega
    · by_cases hb : ncf.ncf_nlevel + 1 ≤ 15
      · refine Or.inr ⟨_, _, iterate_push_step ncf r rest1 hi hs (by omega) hb,
          ⟨hr, ?_, Or.inr ⟨rest1, rfl, ?_, ?_⟩⟩, ?_⟩
        · show (ncf.ncf_reduce.set (ncf.ncf_nlevel + 1) r.skipto)[0]?.getD 0 = 0
          rw [List.getElem?_set_ne (by omega)]
          exact h0
        · show (if (ncf.ncf_reduce.set (ncf.ncf_nlevel + 1) r.skipto)[ncf.ncf_nlevel + 1]?.getD 0
              = ncf.ncf_counter + 1 then ncf.ncf_nlevel else ncf.ncf_nlevel + 1) ≤ 15
          split_ifs <;> omega
        · show ncf.ncf_counter + 1 + rest1.length < 4294967296
          omega
        · intro _
          show 1 ≤ ncf.ncf_counter + 1
          omega
      · exact Or.inl (iterate_step_bounds ncf r rest1 hi hs (by omega))

theorem iterate_call_safe (rs : List Rule) (hlen : rs.length < 4294967296)
    (ncf : nl_config) (hI : IterSafe rs ncf) :
    npf_rule_iterate ncf = .error .reduceBounds ∨
      ∃ res ncf1, npf_rule_iterate ncf = .ok (res, ncf1) ∧ IterSafe rs ncf1 ∧
        (res.isSome = true → 1 ≤ ncf1.ncf_counter) := by
  obtain ⟨hr, h0, hit⟩ := hI
  rcases hit with hnone | ⟨rest, hi, hn, hc⟩
  · rw [iterate_init ncf rs hnone hr]
    exact iterate_call_started rs _ rs hr (set_zero_getD _) rfl (Nat.zero_le _)
      (by simpa using hlen)
  · exact iterate_call_started rs ncf rest hr h0 hi hn hc

theorem iterateCalls_safe (rs : List Rule) (hlen : rs.length < 4294967296) :
    ∀ (m : Nat) (ncf : nl_config), IterSafe rs ncf →
      iterateCalls m ncf = .error .reduceBounds ∨
        ∃ res ncf1, iterateCalls m ncf = .ok (res, ncf1) ∧ IterSafe rs ncf1
  | 0, ncf, hI => Or.inr ⟨[], ncf, rfl, hI⟩
  | m + 1, ncf, hI => by
    rcases iterate_call_safe rs hlen ncf hI with herr | ⟨res, ncf1, e1, hI1, _⟩
    · exact Or.inl (by rw [iterateCalls, herr])
    · rcases iterateCalls_safe rs hlen m ncf1 hI1 with herr | ⟨rs2, ncf2, e2, hI2⟩
      · refine Or.inl ?_
        rw [iterateCalls, e1]
        simp only [herr]
      · refine Or.inr ⟨res :: rs2, ncf2, ?_, hI2⟩
        rw [iterateCalls, e1]
        simp only [e2]

theorem iterSafe_configWithRules (rs : List Rule) : IterSafe rs (configWithRules rs) :=
  ⟨rfl, by simp [configWithRules, npf_config_create], Or.inl rfl⟩

/-- Claim C16: on a rule list of fewer than `2 ^ 32` elements, whatever its
`"skip-to"` values, no number of calls of `npf_rule_iterate` ends in a failure of the
assertion `ncf_nlevel > 0` (a run can only stop at the index 16 of `ncf_reduce`); after
any number of calls entry 0 of `ncf_reduce` is 0, the next call does not fail the
assertion either, and when it returns a rule the counter it has incremented is at
least 1 and entry 0 is still 0. -/
theorem assertion_never_fails (rs : List Rule) (hlen : rs.length < 4294967296) (m : Nat) :
    iterateCalls m (configWithRules rs) ≠ .error .assertion
    ∧ ∀ res ncf, iterateCalls m (configWithRules rs) = .ok (res, ncf) →
        ncf.ncf_reduce[0]?.getD 0 = 0
        ∧ npf_rule_iterate ncf ≠ .error .assertion
        ∧ ∀ r level ncf1, npf_rule_iterate ncf = .ok (some (r, level), ncf1) →
            1 ≤ ncf1.ncf_counter ∧ ncf1.ncf_reduce[0]?.getD 0 = 0 := by
  have hrun := iterateCalls_safe rs hlen m (configWithRules rs) (iterSafe_configWithRules rs)
  constructor
  · rcases hrun with herr | ⟨res, ncf, e, _⟩
    · rw [herr]
      intro hcontra
      cases hcontra
    · rw [e]
      intro hcontra
      cases hcontra
  · intro res ncf e
    rcases hrun with herr | ⟨res1, ncf1, e1, hI⟩
    · rw [herr] at e
      cases e
    · rw [e1] at e
      cases e
      have hcall := iterate_call_safe rs hlen ncf hI
      refine ⟨hI.2.1, ?_, ?_⟩
      · rcases hcall with herr | ⟨res2, ncf2, e2, _, _⟩
        · rw [herr]
          intro hcontra
          cases hcontra
        · rw [e2]
          intro hcontra
          cases hcontra
      · intro r level ncf2 e2
        rcases hcall with herr | ⟨res3, ncf3, e3, hI3, hcnt⟩
        · rw [herr] at e2
          cases e2
        · rw [e3] at e2
          cases e2
          exact ⟨hcnt rfl, hI3.2.1⟩

/-- C16 at the malformed list `[A(skip-to=100), B]`, after one call. -/
theorem assertion_never_fails_witness :
    [skipRule "A" 100, namedRule "B"].length < 4294967296
    ∧ iterateCalls 1 (configWithRules [skipRule "A" 100, namedRule "B"]) ≠ .error .assertion :=
  ⟨by decide, (assertion_never_fails [skipRule "A" 100, namedRule "B"] (by decide) 1).1⟩

/-! ## The iterator on linearized forests -/

theorem iterateCalls_one (ncf ncf1 : nl_config) (res : Option (Rule × Nat))
    (h : npf_rule_iterate ncf = .ok (res, ncf1)) :
    iterateCalls 1 ncf = .ok ([res], ncf1) := by
  simp only [iterateCalls, h]

theorem iterateCalls_add : ∀ (a b : Nat) (ncf ncf1 ncf2 : nl_config)
    (ra rb : List (Option (Rule × Nat))),
    iterateCalls a ncf = .ok (ra, ncf1) → iterateCalls b ncf1 = .ok (rb, ncf2) →
    iterateCalls (a + b) ncf = .ok (ra ++ rb, ncf2)
  | 0, b, ncf, ncf1, ncf2, ra, rb, ha, hb => by
    simp only [iterateCalls, Except.ok.injEq, Prod.mk.injEq] at ha
    obtain ⟨h1, h2⟩ := ha
    subst h1
    subst h2
    simpa using hb
  | a + 1, b, ncf, ncf1, ncf2, ra, rb, ha, hb => by
    rw [iterateCalls] at ha
    cases hcall : npf_rule_iterate ncf with
    | error e => rw [hcall] at ha; cases ha
    | ok p =>
      obtain ⟨res, ncf3⟩ := p
      rw [hcall] at ha
      cases hrest : iterateCalls a ncf3 with
      | error e => simp only [hrest] at ha; cases ha
      | ok q =>
        obtain ⟨ra1, ncf4⟩ := q
        simp only [hrest, Except.ok.injEq, Prod.mk.injEq] at ha
        obtain ⟨h1, h2⟩ := ha
        subst h1
        subst h2
        have ih := iterateCalls_add a b ncf3 ncf4 ncf2 ra1 rb hrest hb
        rw [Nat.add_right_comm, iterateCalls, hcall]
        simp only [ih, List.cons_append]

theorem rule_count_pos : ∀ r : Rule, 0 < r.count
  | .mk _ none => by rw [Rule.count]; exact Nat.one_pos
  | .mk d (some l) => by have := count_group d l; omega

mutual
theorem rule_depths_length (D : Nat) : ∀ r : Rule, (r.depths D).length = r.count
  | .mk d none => by simp [Rule.depths, Rule.count]
  | .mk d (some subrlset) => by
    simp [Rule.depths, Rule.count, forestDepths_length (D + 1) subrlset]; omega
theorem forestDepths_length (D : Nat) :
    ∀ rules : List Rule, (forestDepths D rules).length = countRules rules
  | [] => by simp [forestDepths, countRules]
  | r :: rest => by
    simp [forestDepths, countRules, rule_depths_length D r, forestDepths_length D rest]
end

theorem skipFree_leaf_skipto (d : PropDict)
    (h : (Rule.mk d none).skipFree = true) : (Rule.mk d none).skipto = 0 := by
  rw [Rule.skipFree, Option.isNone_iff_eq_none] at h
  simp [Rule.skipto, Rule.dict, prop_dictionary_get_uint32, h]

theorem iterate_plain_step_ex (ncf : nl_config) (r : Rule) (rest : List Rule)
    (h : ncf.ncf_rule_iter = some (r :: rest)) (hs : r.skipto = 0)
    (h0 : ncf.ncf_reduce[0]?.getD 0 = 0)
    (hc : ncf.ncf_counter + 1 < 4294967296) (hn : ncf.ncf_nlevel ≤ 15) :
    ∃ ncf1, npf_rule_iterate ncf = .ok (some (r, ncf.ncf_nlevel), ncf1)
      ∧ ncf1.ncf_rule_iter = some rest
      ∧ ncf1.ncf_reduce = ncf.ncf_reduce
      ∧ ncf1.ncf_counter = ncf.ncf_counter + 1
      ∧ ncf1.ncf_nlevel =
          (if ncf.ncf_reduce[ncf.ncf_nlevel]?.getD 0 = ncf.ncf_counter + 1
           then ncf.ncf_nlevel - 1 else ncf.ncf_nlevel) :=
  ⟨_, iterate_plain_step ncf r rest h hs h0 hc hn, rfl, rfl, rfl, rfl⟩

theorem iterate_push_step_ex (ncf : nl_config) (r : Rule) (rest : List Rule)
    (h : ncf.ncf_rule_iter = some (r :: rest)) (hs : r.skipto ≠ 0)
    (hc : ncf.ncf_counter + 1 < 4294967296) (hn : ncf.ncf_nlevel + 1 ≤ 15) :
    ∃ ncf1, npf_rule_iterate ncf = .ok (some (r, ncf.ncf_nlevel), ncf1)
      ∧ ncf1.ncf_rule_iter = some rest
      ∧ ncf1.ncf_reduce = ncf.ncf_reduce.set (ncf.ncf_nlevel + 1) r.skipto
      ∧ ncf1.ncf_counter = ncf.ncf_counter + 1
      ∧ ncf1.ncf_nlevel =
          (if (ncf.ncf_reduce.set (ncf.ncf_nlevel + 1) r.skipto)[ncf.ncf_nlevel + 1]?.getD 0
              = ncf.ncf_counter + 1
           then ncf.ncf_nlevel else ncf.ncf_nlevel + 1) :=
  ⟨_, iterate_push_step ncf r rest h hs hc hn, rfl, rfl, rfl, rfl⟩

theorem isNone_count (r : Rule) (h : r.subrules.isNone = true) : r.count = 1 := by
  cases r with
  | mk d s =>
    cases s with
    | none => rw [Rule.count]
    | some l => simp [Rule.subrules] at h

theorem countRules_eq_zero (rs : List Rule) (h : countRules rs = 0) : rs = [] := by
  cases rs with
  | nil => rfl
  | cons r rest =>
    have h1 := countRules_cons r rest
    have h2 := rule_count_pos r
    omega

mutual
theorem iterate_rule_run : ∀ (r : Rule) (n D : Nat) (tail : List Rule) (ncf : nl_config),
    r.skipFree = true → r.lastPlain = true → r.groupsWithin D 14 = true →
    ncf.ncf_rule_iter = some (flattenRule n r ++ tail) →
    ncf.ncf_counter = n → ncf.ncf_nlevel = D → D ≤ 15 →
    n + r.count < 4294967296 →
    ncf.ncf_reduce[0]?.getD 0 = 0 → ncf.ncf_reduce.length = 16 →
    ∃ ncf1, iterateCalls r.count ncf =
        .ok (((flattenRule n r).zip (r.depths D)).map some, ncf1)
      ∧ ncf1.ncf_rule_iter = some tail
      ∧ ncf1.ncf_counter = n + r.count
      ∧ ncf1.ncf_reduce.length = 16
      ∧ (∀ j, j ≤ D → ncf1.ncf_reduce[j]? = ncf.ncf_reduce[j]?)
      ∧ ncf1.ncf_nlevel =
          (if r.subrules.isNone = true ∧ ncf.ncf_reduce[D]?.getD 0 = n + 1 then D - 1 else D)
  | .mk d none, n, D, tail, ncf, hsf, _, _, hi, hc, hl, hD, hlt, h0, h16 => by
    have hcount : (Rule.mk d none).count = 1 := by rw [Rule.count]
    have hsk := skipFree_leaf_skipto d hsf
    have hi1 : ncf.ncf_rule_iter = some (Rule.mk d none :: tail) := by
      rw [hi, flattenRule]
      rfl
    obtain ⟨ncf1, e1, hit1, hred1, hcnt1, hlev1⟩ :=
      iterate_plain_step_ex ncf (.mk d none) tail hi1 hsk h0 (by omega) (by omega)
    refine ⟨ncf1, ?_, hit1, ?_, ?_, ?_, ?_⟩
    · rw [hcount, iterateCalls_one _ _ _ e1, flattenRule, Rule.depths, hl]
      rfl
    · rw [hcnt1, hcount, hc]
    · rw [hred1, h16]
    · intro j _
      rw [hred1]
    · rw [hlev1, hl, hc]
      simp [Rule.subrules]
  | .mk d (some subs), n, D, tail, ncf, hsf, hlp, hgw, hi, hc, hl, hD, hlt, h0, h16 => by
    have hcount := count_group d subs
    rw [Rule.skipFree, Bool.and_eq_true] at hsf
    rw [Rule.lastPlain, Bool.and_eq_true] at hlp
    rw [Rule.groupsWithin, Bool.and_eq_true, decide_eq_true_eq] at hgw
    have hk : n + 1 + countRules subs < 4294967296 := by omega
    have hkm : (n + 1 + countRules subs) % 4294967296 = n + 1 + countRules subs :=
      Nat.mod_eq_of_lt hk
    have hsk : (Rule.mk (prop_dictionary_set_uint32 d "skip-to" (n + 1 + countRules subs))
        none).skipto = n + 1 + countRules subs := skipto_setSkipTo d _ hk
    have hflat : flattenRule n (.mk d (some subs)) =
        Rule.mk (prop_dictionary_set_uint32 d "skip-to" (n + 1 + countRules subs)) none
          :: flatten (n + 1) subs := by
      rw [flattenRule, hkm]
    have hi1 : ncf.ncf_rule_iter =
        some (Rule.mk (prop_dictionary_set_uint32 d "skip-to" (n + 1 + countRules subs)) none
          :: (flatten (n + 1) subs ++ tail)) := by
      rw [hi, hflat]
      rfl
    obtain ⟨ncf1, e1, hit1, hred1, hcnt1, hlev1⟩ :=
      iterate_push_step_ex ncf _ _ hi1 (by rw [hsk]; omega) (by omega) (by omega)
    rw [hsk, hl] at hred1
    rw [hsk, hl, hc, List.getElem?_set_self (by omega)] at hlev1
    simp only [Option.getD_some] at hlev1
    have hget : ncf1.ncf_reduce[D + 1]?.getD 0 = n + 1 + countRules subs := by
      rw [hred1, List.getElem?_set_self (by omega)]
      rfl
    have hpres : ∀ j, j ≤ D → ncf1.ncf_reduce[j]? = ncf.ncf_reduce[j]? := by
      intro j hj
      rw [hred1, List.getElem?_set_ne (by omega)]
    have hlen1 : ncf1.ncf_reduce.length = 16 := by
      rw [hred1, List.length_set, h16]
    have hone := iterateCalls_one _ _ _ e1
    rcases Nat.eq_zero_or_pos (countRules subs) with hz | hpos
    · have hnil := countRules_eq_zero subs hz
      subst hnil
      refine ⟨ncf1, ?_, ?_, ?_, hlen1, hpres, ?_⟩
      · rw [hcount, hz, hone, hflat, Rule.depths, hl]
        rfl
      · simpa [flatten] using hit1
      · rw [hcnt1, hcount, hz, hc]
      · rw [hlev1, if_pos (by omega)]
        simp [Rule.subrules]
    · rw [if_neg (by omega)] at hlev1
      obtain ⟨ncf2, e2, hit2, hcnt2, hlen2, hpres2, hlev2⟩ :=
        iterate_forest_run subs (n + 1) (D + 1) tail ncf1 hsf.2 hlp.2 hgw.2 hit1
          (by rw [hcnt1, hc]) hlev1 (by omega) (by omega)
          (by rw [hpres 0 (Nat.zero_le _)]; exact h0) hlen1
          (by intro c h1 h2; rw [hget]; omega)
      have hne : subs.isEmpty = false := by
        cases subs with
        | nil => simp [countRules] at hpos
        | cons a b => rfl
      have hlg : lastIsGroup subs = false := by
        have := hlp.1
        simpa using this
      rw [if_pos ⟨hne, hlg, hget⟩] at hlev2
      refine ⟨ncf2, ?_, hit2, ?_, hlen2, ?_, ?_⟩
      · rw [hcount, iterateCalls_add 1 (countRules subs) ncf ncf1 ncf2 _ _ hone e2, hflat,
          Rule.depths, hl]
        rfl
      · rw [hcnt2, hcount]
        omega
      · intro j hj
        rw [hpres2 j (by omega), hpres j hj]
      · rw [hlev2]
        simp [Rule.subrules]
theorem iterate_forest_run : ∀ (rs : List Rule) (n D : Nat) (tail : List Rule)
    (ncf : nl_config),
    forestSkipFree rs = true → forestLastPlain rs = true → forestGroupsWithin D 14 rs = true →
    ncf.ncf_rule_iter = some (flatten n rs ++ tail) →
    ncf.ncf_counter = n → ncf.ncf_nlevel = D → D ≤ 15 →
    n + countRules rs < 4294967296 →
    ncf.ncf_reduce[0]?.getD 0 = 0 → ncf.ncf_reduce.length = 16 →
    (∀ c, n < c → c < n + countRules rs → ncf.ncf_reduce[D]?.getD 0 ≠ c) →
    ∃ ncf1, iterateCalls (countRules rs) ncf =
        .ok (((flatten n rs).zip (forestDepths D rs)).map some, ncf1)
      ∧ ncf1.ncf_rule_iter = some tail
      ∧ ncf1.ncf_counter = n + countRules rs
      ∧ ncf1.ncf_reduce.length = 16
      ∧ (∀ j, j ≤ D → ncf1.ncf_reduce[j]? = ncf.ncf_reduce[j]?)
      ∧ ncf1.ncf_nlevel =
          (if rs.isEmpty = false ∧ lastIsGroup rs = false
              ∧ ncf.ncf_reduce[D]?.getD 0 = n + countRules rs then D - 1 else D)
  | [], n, D, tail, ncf, _, _, _, hi, hc, hl, _, _, _, h16, _ => by
    refine ⟨ncf, ?_, ?_, ?_, h16, fun _ _ => rfl, ?_⟩
    · rw [countRules, flatten, forestDepths]
      rfl
    · rw [hi, flatten]
      rfl
    · rw [hc, countRules]
      rfl
    · rw [hl]
      simp
  | r :: rest, n, D, tail, ncf, hsf, hlp, hgw, hi, hc, hl, hD, hlt, h0, h16, hth => by
    have hcons := countRules_cons r rest
    rw [forestSkipFree, Bool.and_eq_true] at hsf
    rw [forestLastPlain, Bool.and_eq_true] at hlp
    rw [forestGroupsWithin, Bool.and_eq_true] at hgw
    have hi1 : ncf.ncf_rule_iter =
        some (flattenRule n r ++ (flatten (n + r.count) rest ++ tail)) := by
      rw [hi, flatten, List.append_assoc]
    obtain ⟨ncf1, e1, hit1, hcnt1, hlen1, hpres1, hlev1⟩ :=
      iterate_rule_run r n D _ ncf hsf.1 hlp.1 hgw.1 hi1 hc hl hD (by omega) h0 h16
    have ih := fun (ncf1 : nl_config) => iterate_forest_run rest (n + r.count) D tail ncf1
      hsf.2 hlp.2 hgw.2
    have hzip : ((flatten n (r :: rest)).zip (forestDepths D (r :: rest))).map some =
        ((flattenRule n r).zip (r.depths D)).map some
          ++ ((flatten (n + r.count) rest).zip (forestDepths D rest)).map some := by
      rw [flatten, forestDepths,
        List.zip_append (by rw [flattenRule_length, rule_depths_length]), List.map_append]
    cases rest with
    | nil =>
      have hc0 : countRules ([] : List Rule) = 0 := by rw [countRules]
      refine ⟨ncf1, ?_, ?_, ?_, hlen1, hpres1, ?_⟩
      · rw [hzip, hcons, hc0, Nat.add_zero, e1, flatten, forestDepths]
        simp
      · simpa [flatten] using hit1
      · rw [hcnt1, hcons, hc0]
        rfl
      · rw [hlev1, hcons, hc0]
        by_cases hn : r.subrules.isNone = true
        · have h1 := isNone_count r hn
          have h2 : r.subrules.isSome = false := by
            cases hsr : r.subrules with
            | none => rfl
            | some l => rw [hsr] at hn; simp at hn
          simp [lastIsGroup, hn, h1, h2]
        · have h2 : r.subrules.isSome = true := by
            cases hsr : r.subrules with
            | none => rw [hsr] at hn; simp at hn
            | some l => rfl
          simp [lastIsGroup, hn, h2]
    | cons r2 rest2 =>
      have hpos := rule_count_pos r2
      have hcons2 := countRules_cons r2 rest2
      have hlevD : ncf1.ncf_nlevel = D := by
        rw [hlev1]
        split_ifs with hcond
        · exfalso
          have h1 := isNone_count r hcond.1
          exact hth (n + 1) (by omega) (by omega) hcond.2
        · rfl
      obtain ⟨ncf2, e2, hit2, hcnt2, hlen2, hpres2, hlev2⟩ :=
        ih ncf1 hit1 hcnt1 hlevD hD (by omega)
          (by rw [hpres1 0 (Nat.zero_le _)]; exact h0) hlen1
          (by
            intro c hc1 hc2
            rw [hpres1 D (Nat.le_refl _)]
            exact hth c (by omega) (by omega))
      refine ⟨ncf2, ?_, hit2, ?_, hlen2, ?_, ?_⟩
      · rw [hzip, hcons,
          iterateCalls_add r.count (countRules (r2 :: rest2)) ncf ncf1 ncf2 _ _ e1 e2]
      · rw [hcnt2, hcons]
        omega
      · intro j hj
        rw [hpres2 j hj, hpres1 j hj]
      · rw [hlev2, hpres1 D (Nat.le_refl _), hcons]
        simp [lastIsGroup, Nat.add_assoc]
end

/-- Claim C15: for an authored forest in which no rule carries `"skip-to"`, with fewer
than `2 ^ 32` rules, in which no rule with a `"subrules"` field is the last element of
the `"subrules"` list of another rule and every group header is nested inside at most
14 groups, the calls of `npf_rule_iterate` over the linearization return the rules of
the flattened list in order, each with the number of groups that enclose it in the
forest, then `NULL`, and the stack level is 0 at the end. -/
theorem iterate_levels_wellnested (F : List Rule)
    (hsf : forestSkipFree F = true) (hlen : countRules F < 4294967296)
    (hlp : forestLastPlain F = true) (hgw : forestGroupsWithin 0 14 F = true) :
    ∃ ncf, iterateCalls (countRules F + 1) (configWithRules (_npf_ruleset_transform F)) =
        .ok (((_npf_ruleset_transform F).zip (forestDepths 0 F)).map some ++ [none], ncf)
      ∧ ncf.ncf_nlevel = 0
      ∧ (forestDepths 0 F).length = (_npf_ruleset_transform F).length := by
  have hinit := iterate_init (configWithRules (_npf_ruleset_transform F))
    (_npf_ruleset_transform F) rfl rfl
  rw [iterateCalls_succ_congr (countRules F) _ _ hinit]
  obtain ⟨ncf1, e1, hit1, _, _, _, hlev1⟩ :=
    iterate_forest_run F 0 0 []
      { configWithRules (_npf_ruleset_transform F) with
          ncf_rule_iter := some (_npf_ruleset_transform F), ncf_nlevel := 0,
          ncf_reduce := (configWithRules (_npf_ruleset_transform F)).ncf_reduce.set 0 0,
          ncf_counter := 0 }
      hsf hlp hgw (by rw [transform_eq, List.append_nil]) rfl rfl (by omega) (by omega)
      (set_zero_getD _) (by simp [configWithRules, npf_config_create])
      (by
        intro c h1 _
        rw [set_zero_getD]
        omega)
  have hz : ncf1.ncf_nlevel = 0 := by
    rw [hlev1]
    split_ifs <;> rfl
  have e2 := iterateCalls_one _ _ _ (iterate_end ncf1 hit1)
  refine ⟨{ ncf1 with ncf_cur_rule := none, ncf_rule_iter := none }, ?_, hz, ?_⟩
  · rw [iterateCalls_add (countRules F) 1 _ ncf1 _ _ _ e1 e2, transform_eq]
  · rw [forestDepths_length, transform_eq, flatten_length]

/-- C15 at the forest `[A, B{[E{[]}, C, D{[X]}, Z]}, F{[Y]}]`: the hypotheses hold and
the nine levels are `[0, 0, 1, 1, 1, 2, 1, 0, 1]`. -/
theorem iterate_levels_wellnested_witness :
    forestSkipFree nestedForest = true
    ∧ countRules nestedForest < 4294967296
    ∧ forestLastPlain nestedForest = true
    ∧ forestGroupsWithin 0 14 nestedForest = true
    ∧ forestDepths 0 nestedForest = [0, 0, 1, 1, 1, 2, 1, 0, 1]
    ∧ ∃ ncf, iterateCalls (countRules nestedForest + 1)
          (configWithRules (_npf_ruleset_transform nestedForest)) =
        .ok (((_npf_ruleset_transform nestedForest).zip (forestDepths 0 nestedForest)).map some
          ++ [none], ncf)
      ∧ ncf.ncf_nlevel = 0
      ∧ (forestDepths 0 nestedForest).length = (_npf_ruleset_transform nestedForest).length :=
  ⟨by decide, by decide, by decide, by decide, by decide,
   iterate_levels_wellnested nestedForest (by decide) (by decide) (by decide) (by decide)⟩

end Npf
